import Mathlib

/-!
Verification of the OpenTreasury proof protocol (canonicalizer, document
builder, hasher, anchor encoder/decoder, verifier, and the annotation app
state machine), shallowly embedded from the TypeScript source.

JS strings are modelled as lists of characters (`Str`); JS objects reached
through `JSON.parse` / object literals are modelled as finite JSON trees
(`Jval`), with object fields as association lists in insertion order.
Platform builtins (URL parsing, JSON.parse, the RPC connection, the wallet)
are passed in as explicit parameters or modelled where noted.
-/

set_option maxHeartbeats 1000000

abbrev Str := List Char

/-- The whitespace class used by JS `String.prototype.trim` and the regex
class `\s`, restricted to its ASCII members. -/
def isWsJs (c : Char) : Bool :=
  c = ' ' || c = '\t' || c = '\n' || c = '\r' || c = '\x0b' || c = '\x0c'

/-- JS `String.prototype.trim`: drop leading and trailing whitespace. -/
def trimJs (s : Str) : Str :=
  ((s.dropWhile isWsJs).reverse.dropWhile isWsJs).reverse

/-- JS `String.prototype.toLowerCase`, on the ASCII range. -/
def lowerStr (s : Str) : Str := s.map Char.toLower

/-- JS `String.prototype.split("\n")`. -/
def splitNl : Str → List Str
  | [] => [[]]
  | c :: cs =>
    if c = '\n' then [] :: splitNl cs
    else
      match splitNl cs with
      | [] => [[c]]
      | l :: ls => (c :: l) :: ls

/-- JS `Array.prototype.join("\n")`. -/
def joinNl : List Str → Str
  | [] => []
  | [l] => l
  | l :: ls => l ++ '\n' :: joinNl ls

/-- JS `String.prototype.startsWith`. -/
def strStarts : Str → Str → Bool
  | [], _ => true
  | _ :: _, [] => false
  | k :: ks, c :: cs => k = c && strStarts ks cs

/-- Lexicographic string comparison, the order produced by the JS default
`Array.prototype.sort` comparator on (BMP) strings. -/
def strLe : Str → Str → Bool
  | [], _ => true
  | _ :: _, [] => false
  | a :: as, b :: bs => if a < b then true else if b < a then false else strLe as bs

/-- JSON-like values: the trees produced by `JSON.parse` and by the
document builder.  Object fields are kept in insertion order; JS object
key sets contain no duplicates (see `nodupKeys`).  Numbers occurring in
the data model are integers (`version`), so `num` carries an `Int`. -/
inductive Jval where
  | null : Jval
  | bool (b : Bool) : Jval
  | num (n : Int) : Jval
  | str (s : Str) : Jval
  | arr (elems : List Jval) : Jval
  | obj (fields : List (Str × Jval)) : Jval

/-- Ordering of object fields by key, as used by `Object.keys(x).sort()`. -/
def keyRel {β : Type} (p q : Str × β) : Prop := strLe p.1 q.1 = true

instance {β : Type} : DecidableRel (keyRel (β := β)) :=
  fun _ _ => inferInstanceAs (Decidable (_ = true))

/-- `Object.keys(x).sort()` followed by rebuilding the object in sorted key
order (`stableStringify`, lines 102-105).  Since JS objects have no
duplicate keys, any sort by key yields the unique key-sorted list.  (JS
additionally enumerates array-index-like keys such as "9" numerically
first regardless of assignment order; that enumeration is still a
deterministic function of the key set alone, and the app's keys — field
names and base58 signatures — are never array-index-like, so the model
keeps plain lexicographic order throughout.) -/
def sortPairs {β : Type} (l : List (Str × β)) : List (Str × β) :=
  l.insertionSort keyRel

mutual
/-- The recursive `sorter` of `stableStringify` (lines 96-108) on tree
values: arrays map recursively, objects are rebuilt with keys sorted and
values sorted recursively, primitives pass through.  (The source sorts the
keys and then recurses into each value; since the sort compares only keys
and `sortKeysFields` preserves keys, the two orders agree —
`sortPairs_sortKeysFields_comm` below.) -/
def sortKeys : Jval → Jval
  | .null => .null
  | .bool b => .bool b
  | .num n => .num n
  | .str s => .str s
  | .arr elems => .arr (sortKeysList elems)
  | .obj fields => .obj (sortPairs (sortKeysFields fields))

def sortKeysList : List Jval → List Jval
  | [] => []
  | v :: vs => sortKeys v :: sortKeysList vs

def sortKeysFields : List (Str × Jval) → List (Str × Jval)
  | [] => []
  | (k, v) :: kvs => (k, sortKeys v) :: sortKeysFields kvs
end

def spaces (n : Nat) : Str := List.replicate n ' '

def hexDigit (n : Nat) : Char :=
  if n < 10 then Char.ofNat ('0'.toNat + n) else Char.ofNat ('a'.toNat + (n - 10))

/-- JSON.stringify escaping of a single character inside a string literal. -/
def escChar (c : Char) : Str :=
  if c = '"' then ['\\', '"']
  else if c = '\\' then ['\\', '\\']
  else if c = '\x08' then ['\\', 'b']
  else if c = '\x0c' then ['\\', 'f']
  else if c = '\n' then ['\\', 'n']
  else if c = '\r' then ['\\', 'r']
  else if c = '\t' then ['\\', 't']
  else if c.toNat < 0x20 then
    ['\\', 'u', '0', '0', hexDigit (c.toNat / 16), hexDigit (c.toNat % 16)]
  else [c]

/-- A JSON string literal: quoted and escaped. -/
def quoteStr (s : Str) : Str := '"' :: ((s.map escChar).flatten ++ ['"'])

mutual
/-- `JSON.stringify(v, null, 2)`: two-space indented serialization, with
`ind` the current indentation of the enclosing value. -/
def jstr : Nat → Jval → Str
  | _, .null => "null".data
  | _, .bool true => "true".data
  | _, .bool false => "false".data
  | _, .num n => (toString n).data
  | _, .str s => quoteStr s
  | _, .arr [] => "[]".data
  | ind, .arr (v :: vs) =>
    '[' :: '\n' :: (jstrItems (ind + 2) (v :: vs) ++ '\n' :: (spaces ind ++ [']']))
  | _, .obj [] => "{}".data
  | ind, .obj (kv :: kvs) =>
    '{' :: '\n' :: (jstrFields (ind + 2) (kv :: kvs) ++ '\n' :: (spaces ind ++ ['}']))

def jstrItems : Nat → List Jval → Str
  | _, [] => []
  | ind, [v] => spaces ind ++ jstr ind v
  | ind, v :: vs => spaces ind ++ (jstr ind v ++ ',' :: '\n' :: jstrItems ind vs)

def jstrFields : Nat → List (Str × Jval) → Str
  | _, [] => []
  | ind, [(k, v)] => spaces ind ++ (quoteStr k ++ ':' :: ' ' :: jstr ind v)
  | ind, (k, v) :: kvs =>
    spaces ind ++ (quoteStr k ++ ':' :: ' ' :: (jstr ind v ++ ',' :: '\n' :: jstrFields ind kvs))
end

/-- `stableStringify` (lines 93-110): deterministic JSON stringify — sort
keys recursively, then `JSON.stringify(·, null, 2)`. -/
def stableStringify (v : Jval) : Str := jstr 0 (sortKeys v)

/-- `TextEncoder().encode` (line 81-83): UTF-8 bytes of a string. -/
def utf8Bytes : Str → List Nat
  | [] => []
  | c :: cs =>
    let n := c.toNat
    (if n < 0x80 then [n]
     else if n < 0x800 then [0xC0 + n / 64, 0x80 + n % 64]
     else if n < 0x10000 then [0xE0 + n / 4096, 0x80 + (n / 64) % 64, 0x80 + n % 64]
     else [0xF0 + n / 262144, 0x80 + (n / 4096) % 64, 0x80 + (n / 64) % 64, 0x80 + n % 64])
      ++ utf8Bytes cs

/-- Truncation to a 32-bit machine word, made explicit on `Nat`. -/
def w32 (x : Nat) : Nat := x % 4294967296

/-- 32-bit rotate right. -/
def rotr32 (n x : Nat) : Nat := w32 ((x >>> n) ||| (x <<< (32 - n)))

def smallSigma0 (x : Nat) : Nat := (rotr32 7 x) ^^^ (rotr32 18 x) ^^^ (x >>> 3)

def smallSigma1 (x : Nat) : Nat := (rotr32 17 x) ^^^ (rotr32 19 x) ^^^ (x >>> 10)

def bigSigma0 (x : Nat) : Nat := (rotr32 2 x) ^^^ (rotr32 13 x) ^^^ (rotr32 22 x)

def bigSigma1 (x : Nat) : Nat := (rotr32 6 x) ^^^ (rotr32 11 x) ^^^ (rotr32 25 x)

/-- The SHA-256 round constants (FIPS 180-4), in decimal. -/
def shaK : List Nat :=
  [1116352408, 1899447441, 3049323471, 3921009573, 961987163,
   1508970993, 2453635748, 2870763221, 3624381080, 310598401,
   607225278, 1426881987, 1925078388, 2162078206, 2614888103,
   3248222580, 3835390401, 4022224774, 264347078, 604807628,
   770255983, 1249150122, 1555081692, 1996064986, 2554220882,
   2821834349, 2952996808, 3210313671, 3336571891, 3584528711,
   113926993, 338241895, 666307205, 773529912, 1294757372,
   1396182291, 1695183700, 1986661051, 2177026350, 2456956037,
   2730485921, 2820302411, 3259730800, 3345764771, 3516065817,
   3600352804, 4094571909, 275423344, 430227734, 506948616,
   659060556, 883997877, 958139571, 1322822218, 1537002063,
   1747873779, 1955562222, 2024104815, 2227730452, 2361852424,
   2428436474, 2756734187, 3204031479, 3329325298]

/-- The SHA-256 initial hash state (FIPS 180-4), in decimal. -/
def shaH0 : List Nat :=
  [1779033703, 3144134277, 1013904242, 2773480762,
   1359893119, 2600822924, 528734635, 1541459225]

/-- SHA-256 message padding: append 0x80, zero bytes to 56 mod 64, and the
bit length as an 8-byte big-endian integer. -/
def shaPad (msg : List Nat) : List Nat :=
  let bitLen := 8 * msg.length
  let padZeros := (119 - msg.length % 64) % 64
  msg ++ 0x80 :: (List.replicate padZeros 0 ++
    [(bitLen >>> 56) % 256, (bitLen >>> 48) % 256, (bitLen >>> 40) % 256,
     (bitLen >>> 32) % 256, (bitLen >>> 24) % 256, (bitLen >>> 16) % 256,
     (bitLen >>> 8) % 256, bitLen % 256])

/-- Split a byte list into 64-byte chunks; the first argument is fuel
bounding the number of chunks (any value at least the list length works,
see `chunks64`). -/
def chunks64Aux : Nat → List Nat → List (List Nat)
  | 0, _ => []
  | _, [] => []
  | n + 1, b :: rest => ((b :: rest).take 64) :: chunks64Aux n ((b :: rest).drop 64)

/-- Split a byte list into 64-byte chunks. -/
def chunks64 (l : List Nat) : List (List Nat) := chunks64Aux l.length l

/-- Big-endian 32-bit words from bytes. -/
def bytesToWords : List Nat → List Nat
  | a :: b :: c :: d :: rest => (a * 16777216 + b * 65536 + c * 256 + d) :: bytesToWords rest
  | _ => []

/-- Extend the 16-word block to the 64-word message schedule (`n` more
words to append). -/
def extendSchedule : Nat → List Nat → List Nat
  | 0, w => w
  | n + 1, w =>
    let len := w.length
    let g (i : Nat) : Nat := (w.get? i).getD 0
    extendSchedule n
      (w ++ [w32 (smallSigma1 (g (len - 2)) + g (len - 7) + smallSigma0 (g (len - 15)) + g (len - 16))])

/-- One SHA-256 compression round, on the state `[a,b,c,d,e,f,g,h]`, fed
with the pair of round constant and schedule word. -/
def shaRound (st : List Nat) (kw : Nat × Nat) : List Nat :=
  match st with
  | [a, b, c, d, e, f, g, h] =>
    let ch := (e &&& f) ^^^ ((4294967295 ^^^ e) &&& g)
    let temp1 := w32 (h + bigSigma1 e + ch + kw.1 + kw.2)
    let maj := (a &&& b) ^^^ (a &&& c) ^^^ (b &&& c)
    let temp2 := w32 (bigSigma0 a + maj)
    [w32 (temp1 + temp2), a, b, c, w32 (d + temp1), e, f, g]
  | other => other

/-- Compress one 64-byte chunk into the running hash state. -/
def shaCompress (h : List Nat) (chunk : List Nat) : List Nat :=
  let ws := extendSchedule 48 (bytesToWords chunk)
  let st := (shaK.zip ws).foldl shaRound h
  (h.zip st).map (fun p => w32 (p.1 + p.2))

/-- SHA-256 digest of a byte list, as 32 bytes.  This models the platform
`crypto.subtle.digest("SHA-256", ·)` used by `sha256Hex` (lines 85-91). -/
def sha256Bytes (msg : List Nat) : List Nat :=
  ((chunks64 (shaPad msg)).foldl shaCompress shaH0).map
    (fun w => [(w >>> 24) % 256, (w >>> 16) % 256, (w >>> 8) % 256, w % 256])
  |>.flatten

/-- `b.toString(16).padStart(2, "0")`: two lowercase hex digits. -/
def byteHex (b : Nat) : Str := [hexDigit (b / 16), hexDigit (b % 16)]

/-- `sha256Hex` (lines 85-91): SHA-256 of the UTF-8 bytes of the input,
rendered as lowercase hex. -/
def sha256Hex (s : Str) : Str := ((sha256Bytes (utf8Bytes s)).map byteHex).flatten

/-- The closed set of category tags (`LabelType`, line 21). -/
inductive Label where
  | donation
  | grant
  | ops
  | milestone
  | other
deriving DecidableEq

def labelStr : Label → Str
  | .donation => "Donation".data
  | .grant => "Grant".data
  | .ops => "Ops".data
  | .milestone => "Milestone".data
  | .other => "Other".data

/-- A stored per-transaction annotation (`TxMeta`, lines 23-27). -/
structure TxMeta where
  label : Label
  note : Option Str
  proofUrl : Option Str
deriving DecidableEq

/-- One exported document entry (`buildOTMS`, lines 353-358). -/
structure OTMSEntry where
  signature : Str
  category : Label
  description : Str
  proofUrl : Str
deriving DecidableEq

/-- The exportable OTMS document (`buildOTMS`, lines 346-360). -/
structure OTMSDoc where
  version : Int
  standard : Str
  cluster : Str
  treasury : Str
  exportedAt : Str
  entries : List OTMSEntry
deriving DecidableEq

/-- `buildOTMS` (lines 346-360).  The annotation map is an association
list in the object's iteration order; `now` is the wall-clock ISO
timestamp.  A missing `note` or `proofUrl` becomes the empty string. -/
def buildOTMS (treasury now : Str) (meta : List (Str × TxMeta)) : OTMSDoc :=
  { version := 1
    standard := "OTMS".data
    cluster := "devnet".data
    treasury := trimJs treasury
    exportedAt := now
    entries := meta.map (fun p =>
      { signature := p.1
        category := p.2.label
        description := p.2.note.getD []
        proofUrl := p.2.proofUrl.getD [] }) }

/-- The JSON value denoted by one OTMS entry object literal, with its
keys in source insertion order (lines 353-358). -/
def entryToJval (e : OTMSEntry) : Jval :=
  .obj [("signature".data, .str e.signature),
        ("category".data, .str (labelStr e.category)),
        ("description".data, .str e.description),
        ("proofUrl".data, .str e.proofUrl)]

/-- The JSON value denoted by the OTMS document object literal, with its
keys in source insertion order (lines 347-359). -/
def otmsToJval (d : OTMSDoc) : Jval :=
  .obj [("version".data, .num d.version),
        ("standard".data, .str d.standard),
        ("cluster".data, .str d.cluster),
        ("treasury".data, .str d.treasury),
        ("exportedAt".data, .str d.exportedAt),
        ("entries".data, .arr (d.entries.map entryToJval))]

/-- The four-line anchor memo text built in `anchorProofOnChain`
(lines 430-435), joined with newlines. -/
def encodeMemo (treasury proofHash ts : Str) : Str :=
  joinNl ["OpenTreasury Proof (OTMS v1)".data,
          "Treasury: ".data ++ treasury,
          "Hash: ".data ++ proofHash,
          "Timestamp: ".data ++ ts]

/-- The verifier's line-prefix decoder (lines 540-548): find the first
line whose lowercasing starts with `key`, strip the matched prefix and
any following whitespace (the regex `\s*`), and trim.  Yields the empty
string when no such line exists (`?? ""`). -/
def decodeField (key : Str) (memo : Str) : Str :=
  match (splitNl memo).find? (fun l => strStarts key (lowerStr l)) with
  | none => []
  | some l => trimJs ((l.drop key.length).dropWhile isWsJs)

/-- `MEMO_PROGRAM_ID.toBase58()` (lines 32-34). -/
def MEMO_PROGRAM_ID : Str := "MemoSq4gqABAXKb96qnH8TysNcWxMyWCqXgDLGmfcHr".data

/-- The `parsed` field of a decoded instruction, as returned by the ledger
query service: a raw string, an object carrying a string `memo` field, or
some other shape (lines 529-533). -/
inductive MemoPayload where
  | pstr (s : Str)
  | pmemo (s : Str)
  | pother
deriving DecidableEq

/-- One decoded instruction of a parsed transaction. -/
structure ParsedIx where
  programId : Str
  payload : MemoPayload
deriving DecidableEq

/-- A parsed transaction: its list of decoded instructions. -/
structure ParsedTx where
  instructions : List ParsedIx
deriving DecidableEq

/-- Extraction of the memo text from the instruction payload
(lines 530-537): strings pass through, an object's string `memo` field is
used, anything else — including the empty string, which is falsy — is
unreadable. -/
def memoTextOf : MemoPayload → Option Str
  | .pstr s => if s = [] then none else some s
  | .pmemo s => if s = [] then none else some s
  | .pother => none

/-- The structured outcome of `verifyProof`; each constructor corresponds
to one `setVerifyMsg` branch (lines 476-575), carrying the values
interpolated into that branch's message. -/
inductive VerifyResult where
  | missingTx
  | missingJson
  | invalidJson
  | txNotFound
  | noMemoIx
  | unreadableMemo
  | missingHashLine
  | hashMismatch (computed memoH memoText : Str)
  | treasuryMismatch (jsonT memoT memoText : Str)
  | verified (memoText : Str)
deriving DecidableEq

mutual
/-- `String(x)` for the treasury field coercion (line 563), covering the
JS `toString` behaviour of each JSON value shape. -/
def jsToString : Jval → Str
  | .null => "null".data
  | .bool true => "true".data
  | .bool false => "false".data
  | .num n => (toString n).data
  | .str s => s
  | .arr elems => jsArrJoin elems
  | .obj _ => "[object Object]".data

/-- `Array.prototype.toString`: elements joined with commas, null
elements rendered as the empty string. -/
def jsArrJoin : List Jval → Str
  | [] => []
  | [v] =>
    match v with
    | .null => []
    | w => jsToString w
  | v :: vs =>
    (match v with
     | .null => []
     | w => jsToString w) ++ ',' :: jsArrJoin vs
end

/-- `String(parsedJson?.treasury ?? "")` (line 563): the `treasury` field
of the parsed document if it is an object carrying one, with `null` and
missing fields collapsing to the empty string. -/
def jsTreasuryField (v : Jval) : Str :=
  match v with
  | .obj fields =>
    match (fields.find? (fun p => decide (p.1 = "treasury".data))).map Prod.snd with
    | none => []
    | some .null => []
    | some w => jsToString w
  | _ => []

/-- `verifyProof` (lines 476-575).  The platform `JSON.parse` and the
ledger query `connection.getParsedTransaction` are passed in as
parameters; the returned flag records whether the ledger query was
performed.  Each early return mirrors one guard of the source, in source
order. -/
def verifyProof (jparse : Str → Option Jval) (getTx : Str → Option ParsedTx)
    (verifyTx verifyJson : Str) : VerifyResult × Bool :=
  let sig := trimJs verifyTx
  if sig = [] then (.missingTx, false)
  else
    let jsonText := trimJs verifyJson
    if jsonText = [] then (.missingJson, false)
    else
      match jparse jsonText with
      | none => (.invalidJson, false)
      | some parsedJson =>
        let computedHash := sha256Hex (stableStringify parsedJson)
        match getTx sig with
        | none => (.txNotFound, true)
        | some ptx =>
          match ptx.instructions.find? (fun ix => decide (ix.programId = MEMO_PROGRAM_ID)) with
          | none => (.noMemoIx, true)
          | some memoIx =>
            match memoTextOf memoIx.payload with
            | none => (.unreadableMemo, true)
            | some memoText =>
              let memoHash := decodeField "hash:".data memoText
              let memoTreasury := decodeField "treasury:".data memoText
              if memoHash = [] then (.missingHashLine, true)
              else if memoHash ≠ computedHash then
                (.hashMismatch computedHash memoHash memoText, true)
              else
                let jsonTreasury := trimJs (jsTreasuryField parsedJson)
                if jsonTreasury ≠ [] ∧ memoTreasury ≠ [] ∧ jsonTreasury ≠ memoTreasury then
                  (.treasuryMismatch jsonTreasury memoTreasury memoText, true)
                else (.verified memoText, true)

/-- `storageKey` (lines 54-56). -/
def storageKey (treasury : Str) : Str := "opentreasury:labels:".data ++ trimJs treasury

/-- The browser key-value annotation store (`localStorage`), abstracted to
the stored maps themselves: a list of (key, annotation map) pairs.
`getItem` returning the parsed map. -/
def storeGet (store : List (Str × List (Str × TxMeta))) (key : Str) :
    Option (List (Str × TxMeta)) :=
  (store.find? (fun p => decide (p.1 = key))).map Prod.snd

/-- `localStorage.setItem`: replace the entry in place, or append it. -/
def storePut (store : List (Str × List (Str × TxMeta))) (key : Str)
    (v : List (Str × TxMeta)) : List (Str × List (Str × TxMeta)) :=
  if (store.find? (fun p => decide (p.1 = key))).isSome then
    store.map (fun p => if p.1 = key then (key, v) else p)
  else store ++ [(key, v)]

/-- The JS object spread `{...meta, [sig]: m}` on the annotation map: an
existing key keeps its position with the value replaced, a new key is
appended. -/
def upsertMeta (meta : List (Str × TxMeta)) (sig : Str) (m : TxMeta) :
    List (Str × TxMeta) :=
  if (meta.find? (fun p => decide (p.1 = sig))).isSome then
    meta.map (fun p => if p.1 = sig then (sig, m) else p)
  else meta ++ [(sig, m)]

/-- `delete next[selectedSig]` on a copy of the map (lines 318-319). -/
def removeMeta (meta : List (Str × TxMeta)) (sig : Str) : List (Str × TxMeta) :=
  meta.filter (fun p => decide (p.1 ≠ sig))

/-- `isValidHttpUrl` (lines 45-52).  The platform WHATWG URL parser is
passed in as `urlProtocol`, returning the protocol of the parsed URL or
`none` when `new URL(value)` throws; the repository logic accepts exactly
the protocols `http:` and `https:`. -/
def isValidHttpUrl (urlProtocol : Str → Option Str) (value : Str) : Bool :=
  match urlProtocol value with
  | none => false
  | some p => decide (p = "http:".data) || decide (p = "https:".data)

/-- The wallet capability exposed by the injected provider (lines 112-118,
452-461): direct sign-and-submit, sign-only with external submission, or
neither; each capability carries the transaction signature the successful
submission path returns. -/
inductive WalletCap where
  | signAndSend (sig : Str)
  | signOnly (sig : Str)
  | neither
deriving DecidableEq

/-- The injected wallet provider (`WalletProvider`, lines 112-118). -/
structure WalletProvider where
  publicKey : Option Str
  cap : WalletCap
deriving DecidableEq

/-- The React component state relevant to the protocol claims: the view
mode (from the URL, fixed for the page load), the treasury input, the
annotation map, the persisted store, the editor fields, and the proof and
verification fields. -/
structure AppState where
  isPublicView : Bool
  treasury : Str
  meta : List (Str × TxMeta)
  store : List (Str × List (Str × TxMeta))
  selectedSig : Option Str
  editLabel : Label
  editOtherDetail : Str
  editNote : Str
  editProof : Str
  saveMsg : Str
  proofHash : Str
  proofJson : Str
  proofTxSig : Str
  proofMsg : Str
  verifyTxField : Str
  verifyJsonField : Str
deriving DecidableEq

/-- `saveMeta` (lines 280-313): guarded on a selection and on the view
mode; a non-empty invalid supporting link produces only an error message;
otherwise the note is assembled (packing the `Other` sub-category), the
map is updated and persisted, and a success message is set. -/
def saveMeta (urlProtocol : Str → Option Str) (s : AppState) : AppState :=
  match s.selectedSig with
  | none => s
  | some sig =>
    if s.isPublicView then s
    else
      let trimmedProof := trimJs s.editProof
      if trimmedProof ≠ [] ∧ isValidHttpUrl urlProtocol trimmedProof = false then
        { s with saveMsg := "❌ Supporting Link must be a valid http(s) URL.".data }
      else
        let desc := trimJs s.editNote
        let other := trimJs s.editOtherDetail
        let finalNote : Option Str :=
          if s.editLabel = .other then
            let base := if other ≠ [] then "Other: ".data ++ other else "Other".data
            if desc ≠ [] then some (base ++ " | ".data ++ desc)
            else if other ≠ [] then some base
            else none
          else if desc ≠ [] then some desc else none
        let next := upsertMeta s.meta sig
          { label := s.editLabel
            note := finalNote
            proofUrl := if trimmedProof ≠ [] then some trimmedProof else none }
        { s with meta := next
                 store := storePut s.store (storageKey s.treasury) next
                 saveMsg := "Saved ✅".data }

/-- `clearMeta` (lines 315-323). -/
def clearMeta (s : AppState) : AppState :=
  match s.selectedSig with
  | none => s
  | some sig =>
    if s.isPublicView then s
    else
      let next := removeMeta s.meta sig
      { s with meta := next
               store := storePut s.store (storageKey s.treasury) next
               saveMsg := "Removed ✅".data }

/-- `generateProof` (lines 362-379): build the document, canonicalize,
hash, and populate the proof fields and the verification JSON box. -/
def generateProof (now : Str) (s : AppState) : AppState :=
  let json := stableStringify (otmsToJval (buildOTMS s.treasury now s.meta))
  let hash := sha256Hex json
  { s with proofJson := json
           proofHash := hash
           proofTxSig := []
           proofMsg := "Proof generated ✅".data
           verifyJsonField := json }

/-- `anchorProofOnChain` (lines 413-474): guards for a provider, a
connected key and a generated hash; builds the memo text; submits through
whichever capability the wallet exposes.  The second component lists the
memo payloads written to the ledger by the call. -/
def anchorProofOnChain (provider : Option WalletProvider) (now : Str)
    (s : AppState) : AppState × List Str :=
  match provider with
  | none => ({ s with proofMsg := "Wallet provider not found.".data }, [])
  | some p =>
    match p.publicKey with
    | none => ({ s with proofMsg := "Connect your wallet first.".data }, [])
    | some _ =>
      if s.proofHash = [] then
        ({ s with proofMsg := "Generate proof first (hash is empty).".data }, [])
      else
        let memoText := encodeMemo (trimJs s.treasury) s.proofHash now
        match p.cap with
        | .signAndSend sig =>
          ({ s with proofTxSig := sig
                    verifyTxField := sig
                    proofMsg := "Anchored on-chain ✅".data }, [memoText])
        | .signOnly sig =>
          ({ s with proofTxSig := sig
                    verifyTxField := sig
                    proofMsg := "Anchored on-chain ✅".data }, [memoText])
        | .neither =>
          ({ s with proofMsg := "Wallet does not support sending transactions.".data }, [])

/-- `selectTx` (lines 269-278) together with the selection effect that
resets the save message (line 258); the editor-population effect
(lines 234-256) touches only the edit fields and is subsumed by the
`evEdit*` events below. -/
def selectTx (sig : Str) (s : AppState) : AppState :=
  if s.isPublicView then s
  else { s with selectedSig := some sig, saveMsg := [] }

/-- The treasury-change effect (lines 163-185): reload the annotation map
from the store and reset selection, proof and verification state. -/
def setTreasury (t : Str) (s : AppState) : AppState :=
  { s with treasury := t
           meta := (storeGet s.store (storageKey t)).getD []
           selectedSig := none
           saveMsg := []
           proofHash := []
           proofJson := []
           proofTxSig := []
           proofMsg := []
           verifyTxField := []
           verifyJsonField := [] }

/-- The user events that can reach the component's mutating handlers.
`evGenerate` and `evAnchor` carry the external inputs of their handlers
(the wall clock and the injected wallet). -/
inductive AppEvent where
  | evSelect (sig : Str)
  | evEditLabel (l : Label)
  | evEditOther (x : Str)
  | evEditNote (x : Str)
  | evEditProof (x : Str)
  | evSave
  | evClear
  | evGenerate (now : Str)
  | evAnchor (provider : Option WalletProvider) (now : Str)
  | evSetTreasury (t : Str)

/-- The UI dispatch.  In the public (read-only) view the whole Protocol
Proof panel — including the Generate Proof and Anchor buttons — is not
rendered (line 762), so `evGenerate` and `evAnchor` cannot invoke their
handlers there; `saveMeta`, `clearMeta` and `selectTx` carry their own
view-mode guards.  The second component lists ledger writes performed by
the transition. -/
def step (urlProtocol : Str → Option Str) (s : AppState) (e : AppEvent) :
    AppState × List Str :=
  match e with
  | .evSelect sig => (selectTx sig s, [])
  | .evEditLabel l =>
    ({ s with editLabel := l
              editOtherDetail := if l = .other then s.editOtherDetail else [] }, [])
  | .evEditOther x => ({ s with editOtherDetail := x }, [])
  | .evEditNote x => ({ s with editNote := x }, [])
  | .evEditProof x => ({ s with editProof := x }, [])
  | .evSave => (saveMeta urlProtocol s, [])
  | .evClear => (clearMeta s, [])
  | .evGenerate now => if s.isPublicView then (s, []) else (generateProof now s, [])
  | .evAnchor provider now =>
    if s.isPublicView then (s, []) else anchorProofOnChain provider now s
  | .evSetTreasury t => (setTreasury t s, [])

/-- The initial component state for a page load (lines 124-185): nothing
selected, all proof and verification state empty, the annotation map
loaded from the store. -/
def initState (pv : Bool) (t : Str) (store₀ : List (Str × List (Str × TxMeta))) :
    AppState :=
  { isPublicView := pv
    treasury := t
    meta := (storeGet store₀ (storageKey t)).getD []
    store := store₀
    selectedSig := none
    editLabel := .donation
    editOtherDetail := []
    editNote := []
    editProof := []
    saveMsg := []
    proofHash := []
    proofJson := []
    proofTxSig := []
    proofMsg := []
    verifyTxField := []
    verifyJsonField := [] }

/-- States reachable from some page load under the UI dispatch. -/
inductive Reachable (urlProtocol : Str → Option Str) : AppState → Prop where
  | init (pv : Bool) (t : Str) (store₀ : List (Str × List (Str × TxMeta))) :
      Reachable urlProtocol (initState pv t store₀)
  | next {s : AppState} (e : AppEvent) :
      Reachable urlProtocol s → Reachable urlProtocol (step urlProtocol s e).1

/-- A JS value in the object-graph model used for the cycle-safety
analysis: primitives, or a reference to a heap object. -/
inductive GVal where
  | gnull
  | gbool (b : Bool)
  | gnum (n : Int)
  | gstr (s : Str)
  | gref (a : Nat)
deriving DecidableEq

/-- A heap object: an array or a plain object. -/
inductive GObj where
  | garr (elems : List GVal)
  | gobj (fields : List (Str × GVal))
deriving DecidableEq

/-- The heap: object `a` lives at index `a`. -/
abbrev Heap := List GObj

/-- The output of the `sorter` pass in the graph model: a fresh tree of
new arrays/objects whose leaves are either primitives or — for a
reference already in the `seen` set — the original reference returned
as-is (line 98 `if (seen.has(x)) return x`). -/
inductive SVal where
  | snull
  | sbool (b : Bool)
  | snum (n : Int)
  | sstr (s : Str)
  | sref (a : Nat)
  | sarr (elems : List SVal)
  | sobj (fields : List (Str × SVal))

/-- Sequentially process a list of graph values with a processing
function, threading the `seen` set through (the source mutates one
`WeakSet` across the whole traversal). -/
def mapThread (go : List Nat → GVal → Option (SVal × List Nat)) :
    List Nat → List GVal → Option (List SVal × List Nat)
  | seen, [] => some ([], seen)
  | seen, v :: vs =>
    match go seen v with
    | none => none
    | some (y, seen₁) =>
      match mapThread go seen₁ vs with
      | none => none
      | some (ys, seen₂) => some (y :: ys, seen₂)

/-- As `mapThread`, over an object's field list. -/
def mapThreadFields (go : List Nat → GVal → Option (SVal × List Nat)) :
    List Nat → List (Str × GVal) → Option (List (Str × SVal) × List Nat)
  | seen, [] => some ([], seen)
  | seen, (k, v) :: kvs =>
    match go seen v with
    | none => none
    | some (y, seen₁) =>
      match mapThreadFields go seen₁ kvs with
      | none => none
      | some (ys, seen₂) => some ((k, y) :: ys, seen₂)

/-- The `sorter` of `stableStringify` (lines 96-108) on the object graph:
a revisited reference is returned unchanged (line 98), an unvisited
object is added to `seen` before its children are processed, arrays map
recursively, objects are rebuilt with keys sorted.  The fuel only bounds
the depth of object entries; `sorterG_total` below shows
`heap.length + 1` fuel always suffices, so the pass terminates on every
input, cyclic ones included. -/
def sorterG (h : Heap) : Nat → List Nat → GVal → Option (SVal × List Nat)
  | _, seen, .gnull => some (.snull, seen)
  | _, seen, .gbool b => some (.sbool b, seen)
  | _, seen, .gnum n => some (.snum n, seen)
  | _, seen, .gstr s => some (.sstr s, seen)
  | fuel, seen, .gref a =>
    if a ∈ seen then some (.sref a, seen)
    else
      match fuel with
      | 0 => none
      | fuel' + 1 =>
        match h[a]? with
        | none => some (.sref a, a :: seen)
        | some (.garr elems) =>
          match mapThread (sorterG h fuel') (a :: seen) elems with
          | none => none
          | some (ys, seen') => some (.sarr ys, seen')
        | some (.gobj fields) =>
          match mapThreadFields (sorterG h fuel') (a :: seen) (sortPairs fields) with
          | none => none
          | some (kvs, seen') => some (.sobj kvs, seen')

/-- Outcome of the `JSON.stringify(·, null, 2)` step in the graph model:
a string, the `TypeError` thrown on a circular structure, or fuel
exhaustion (never reached in the runs below). -/
inductive JsOut where
  | ok (s : Str)
  | circular
  | fuelOut
deriving DecidableEq

/-- Serialize one original graph value (a child of a heap object — always
a primitive or a reference), given the handler for references. -/
def jsgVal (refh : Nat → JsOut) : GVal → JsOut
  | .gnull => .ok "null".data
  | .gbool true => .ok "true".data
  | .gbool false => .ok "false".data
  | .gnum n => .ok (toString n).data
  | .gstr s => .ok (quoteStr s)
  | .gref a => refh a

/-- Array items of an original heap array, with separators and
indentation. -/
def jsgValItems (refh : Nat → JsOut) (ind : Nat) : List GVal → JsOut
  | [] => .ok []
  | [v] =>
    match jsgVal refh v with
    | .ok s => .ok (spaces ind ++ s)
    | e => e
  | v :: vs =>
    match jsgVal refh v with
    | .ok s =>
      match jsgValItems refh ind vs with
      | .ok rest => .ok (spaces ind ++ (s ++ ',' :: '\n' :: rest))
      | e => e
    | e => e

/-- Fields of an original heap object, with separators and indentation. -/
def jsgValFields (refh : Nat → JsOut) (ind : Nat) : List (Str × GVal) → JsOut
  | [] => .ok []
  | [(k, v)] =>
    match jsgVal refh v with
    | .ok s => .ok (spaces ind ++ (quoteStr k ++ ':' :: ' ' :: s))
    | e => e
  | (k, v) :: kvs =>
    match jsgVal refh v with
    | .ok s =>
      match jsgValFields refh ind kvs with
      | .ok rest => .ok (spaces ind ++ (quoteStr k ++ ':' :: ' ' :: (s ++ ',' :: '\n' :: rest)))
      | e => e
    | e => e

/-- `JSON.stringify`'s serialization of the heap object behind a raw
reference, with its circular-structure check: an address already on the
ancestor stack throws `TypeError`.  Field order is the object's original
insertion order — a revisited reference was returned by the sorter
without sorting. -/
def jsgRef (h : Heap) : Nat → List Nat → Nat → Nat → JsOut
  | fuel, stack, ind, a =>
    if a ∈ stack then .circular
    else
      match fuel with
      | 0 => .fuelOut
      | fuel' + 1 =>
        match h[a]? with
        | none => .ok "null".data
        | some (.garr []) => .ok "[]".data
        | some (.garr (v :: vs)) =>
          match jsgValItems (jsgRef h fuel' (a :: stack) (ind + 2)) (ind + 2) (v :: vs) with
          | .ok body => .ok ('[' :: '\n' :: (body ++ '\n' :: (spaces ind ++ [']'])))
          | e => e
        | some (.gobj []) => .ok "{}".data
        | some (.gobj (kv :: kvs)) =>
          match jsgValFields (jsgRef h fuel' (a :: stack) (ind + 2)) (ind + 2) (kv :: kvs) with
          | .ok body => .ok ('{' :: '\n' :: (body ++ '\n' :: (spaces ind ++ ['}'])))
          | e => e

mutual
/-- `JSON.stringify(·, null, 2)` applied to the sorter's output.  Fresh
tree nodes are serialized structurally; a raw reference leaf re-enters
the original object graph through `jsgRef`. -/
def jsgS (h : Heap) (fuel : Nat) : List Nat → Nat → SVal → JsOut
  | _, _, .snull => .ok "null".data
  | _, _, .sbool true => .ok "true".data
  | _, _, .sbool false => .ok "false".data
  | _, _, .snum n => .ok (toString n).data
  | _, _, .sstr s => .ok (quoteStr s)
  | stack, ind, .sref a => jsgRef h fuel stack ind a
  | _, _, .sarr [] => .ok "[]".data
  | stack, ind, .sarr (v :: vs) =>
    match jsgSItems h fuel stack (ind + 2) (v :: vs) with
    | .ok body => .ok ('[' :: '\n' :: (body ++ '\n' :: (spaces ind ++ [']'])))
    | e => e
  | _, _, .sobj [] => .ok "{}".data
  | stack, ind, .sobj (kv :: kvs) =>
    match jsgSFields h fuel stack (ind + 2) (kv :: kvs) with
    | .ok body => .ok ('{' :: '\n' :: (body ++ '\n' :: (spaces ind ++ ['}'])))
    | e => e

def jsgSItems (h : Heap) (fuel : Nat) : List Nat → Nat → List SVal → JsOut
  | _, _, [] => .ok []
  | stack, ind, [v] =>
    match jsgS h fuel stack ind v with
    | .ok s => .ok (spaces ind ++ s)
    | e => e
  | stack, ind, v :: vs =>
    match jsgS h fuel stack ind v with
    | .ok s =>
      match jsgSItems h fuel stack ind vs with
      | .ok rest => .ok (spaces ind ++ (s ++ ',' :: '\n' :: rest))
      | e => e
    | e => e

def jsgSFields (h : Heap) (fuel : Nat) : List Nat → Nat → List (Str × SVal) → JsOut
  | _, _, [] => .ok []
  | stack, ind, [(k, v)] =>
    match jsgS h fuel stack ind v with
    | .ok s => .ok (spaces ind ++ (quoteStr k ++ ':' :: ' ' :: s))
    | e => e
  | stack, ind, (k, v) :: kvs =>
    match jsgS h fuel stack ind v with
    | .ok s =>
      match jsgSFields h fuel stack ind kvs with
      | .ok rest =>
        .ok (spaces ind ++ (quoteStr k ++ ':' :: ' ' :: (s ++ ',' :: '\n' :: rest)))
      | e => e
    | e => e
end

/-- `stableStringify` on the object graph: the sorter pass followed by
`JSON.stringify(·, null, 2)` of its result, each run with
`heap.length + 1` fuel (enough for every depth of object entries, since
each entry visits a new object). -/
def stableStringifyG (h : Heap) (v : GVal) : JsOut :=
  match sorterG h (h.length + 1) [] v with
  | none => .fuelOut
  | some (s, _) => jsgS h (h.length + 1) [] 0 s

/-- Well-formedness of a graph value relative to a heap: every reference
points into the heap. -/
def grefOk (hlen : Nat) : GVal → Bool
  | .gref a => a < hlen
  | _ => true

/-- Well-formedness of a heap object. -/
def gobjOk (hlen : Nat) : GObj → Bool
  | .garr elems => elems.all (grefOk hlen)
  | .gobj fields => fields.all (fun p => grefOk hlen p.2)

/-- Well-formedness of a heap: every object's references point into the
heap. -/
def heapOk (h : Heap) : Bool := h.all (gobjOk h.length)

/-- The number of valid heap addresses not yet in the `seen` set; the
quantity that shrinks every time the sorter enters an unvisited object. -/
def unseenCount (hlen : Nat) (seen : List Nat) : Nat :=
  ((List.range hlen).filter (fun a => decide (a ∉ seen))).length

mutual
/-- Two JSON trees are equal up to re-ordering of object keys at any
nesting depth: identical at primitives, pointwise at arrays, and at
objects a pointwise-related field list followed by a permutation. -/
inductive KeyPerm : Jval → Jval → Prop where
  | null : KeyPerm .null .null
  | bool (b : Bool) : KeyPerm (.bool b) (.bool b)
  | num (n : Int) : KeyPerm (.num n) (.num n)
  | str (s : Str) : KeyPerm (.str s) (.str s)
  | arr {xs ys : List Jval} : KeyPermList xs ys → KeyPerm (.arr xs) (.arr ys)
  | obj {kvs mid kvs' : List (Str × Jval)} :
      KeyPermFields kvs mid → mid.Perm kvs' → KeyPerm (.obj kvs) (.obj kvs')

/-- Pointwise `KeyPerm` on element lists. -/
inductive KeyPermList : List Jval → List Jval → Prop where
  | nil : KeyPermList [] []
  | cons {x y : Jval} {xs ys : List Jval} :
      KeyPerm x y → KeyPermList xs ys → KeyPermList (x :: xs) (y :: ys)

/-- Pointwise `KeyPerm` on field lists: same keys in the same order,
related values. -/
inductive KeyPermFields : List (Str × Jval) → List (Str × Jval) → Prop where
  | nil : KeyPermFields [] []
  | cons {k : Str} {v w : Jval} {kvs kvs' : List (Str × Jval)} :
      KeyPerm v w → KeyPermFields kvs kvs' → KeyPermFields ((k, v) :: kvs) ((k, w) :: kvs')
end

mutual
/-- JS objects never hold two fields with the same key; this predicate
states that invariant at every nesting depth of a JSON tree.  It holds
of every tree produced by `JSON.parse` or by an object literal. -/
def nodupKeys : Jval → Bool
  | .null => true
  | .bool _ => true
  | .num _ => true
  | .str _ => true
  | .arr elems => nodupKeysList elems
  | .obj fields => decide ((fields.map Prod.fst).Nodup) && nodupKeysFields fields

def nodupKeysList : List Jval → Bool
  | [] => true
  | v :: vs => nodupKeys v && nodupKeysList vs

def nodupKeysFields : List (Str × Jval) → Bool
  | [] => true
  | (_, v) :: kvs => nodupKeys v && nodupKeysFields kvs
end

/-- A hexadecimal digit character (the alphabet of a rendered digest). -/
def isHexDigit (c : Char) : Bool :=
  ('0' ≤ c && c ≤ '9') || ('a' ≤ c && c ≤ 'f') || ('A' ≤ c && c ≤ 'F')

/-- The JSON value `JSON.parse` returns on the canonicalizer's output:
`stableStringify v` prints the tree `sortKeys v` in JSON syntax, and
parsing a printed JSON text yields back the tree it prints (the defining
property of `JSON.parse`, a platform builtin not part of this
repository), so the parse of the canonical form of `v` is `sortKeys v`. -/
def parseOfCanonical (v : Jval) : Jval := sortKeys v

/-- Strict key order on fields: key-below and different keys.  Two lists
of fields that are permutations of each other and both sorted in this
strict order are equal. -/
def keyLt {β : Type} (p q : Str × β) : Prop := keyRel p q ∧ p.1 ≠ q.1

/-- A read-only-view state that nevertheless carries a generated proof
hash and a connected context, exercising the anchor handler directly. -/
def pubProofState : AppState :=
  { isPublicView := true
    treasury := "T1".data
    meta := []
    store := []
    selectedSig := none
    editLabel := .donation
    editOtherDetail := []
    editNote := []
    editProof := []
    saveMsg := []
    proofHash := "ab12".data
    proofJson := []
    proofTxSig := []
    proofMsg := []
    verifyTxField := []
    verifyJsonField := [] }

/-- An interactive-view state with a selected transaction and an invalid
supporting link in the editor. -/
def editBadUrlState : AppState :=
  { isPublicView := false
    treasury := "T1".data
    meta := [("SIG1".data, { label := .grant, note := some "n".data, proofUrl := none })]
    store := [(storageKey "T1".data, [("SIG1".data, { label := .grant, note := some "n".data, proofUrl := none })])]
    selectedSig := some "SIG1".data
    editLabel := .ops
    editOtherDetail := []
    editNote := "note".data
    editProof := "not a url".data
    saveMsg := []
    proofHash := []
    proofJson := []
    proofTxSig := []
    proofMsg := []
    verifyTxField := []
    verifyJsonField := [] }

theorem strLe_refl (s : Str) : strLe s s = true := by
  induction s with
  | nil => rfl
  | cons a as ih => simpa [strLe] using ih

theorem strLe_total (s t : Str) : strLe s t = true ∨ strLe t s = true := by
  induction s generalizing t with
  | nil => left; rfl
  | cons a as ih =>
    cases t with
    | nil => right; rfl
    | cons b bs =>
      rcases lt_trichotomy a b with h | h | h
      · left; simp [strLe, h]
      · subst h
        rcases ih bs with h2 | h2
        · left; simp [strLe, h2]
        · right; simp [strLe, h2]
      · right; simp [strLe, h]

theorem strLe_trans {s t u : Str} (h₁ : strLe s t = true) (h₂ : strLe t u = true) :
    strLe s u = true := by
  induction s generalizing t u with
  | nil => rfl
  | cons a as ih =>
    cases t with
    | nil => simp [strLe] at h₁
    | cons b bs =>
      cases u with
      | nil => simp [strLe] at h₂
      | cons c cs =>
        rcases lt_trichotomy a b with hab | hab | hab
        · rcases lt_trichotomy b c with hbc | hbc | hbc
          · simp [strLe, lt_trans hab hbc]
          · subst hbc; simp [strLe, hab]
          · simp [strLe, lt_asymm hbc, hbc] at h₂
        · subst hab
          rcases lt_trichotomy a c with hac | hac | hac
          · simp [strLe, hac]
          · subst hac
            simp only [strLe, lt_irrefl, if_false] at h₁ h₂ ⊢
            exact ih h₁ h₂
          · simp [strLe, lt_asymm hac, hac] at h₂
        · simp [strLe, lt_asymm hab, hab] at h₁

theorem strLe_antisymm {s t : Str} (h₁ : strLe s t = true) (h₂ : strLe t s = true) :
    s = t := by
  induction s generalizing t with
  | nil =>
    cases t with
    | nil => rfl
    | cons b bs => simp [strLe] at h₂
  | cons a as ih =>
    cases t with
    | nil => simp [strLe] at h₁
    | cons b bs =>
      rcases lt_trichotomy a b with hab | hab | hab
      · simp [strLe, lt_asymm hab, hab] at h₂
      · subst hab
        simp only [strLe, lt_irrefl, if_false] at h₁ h₂
        rw [ih h₁ h₂]
      · simp [strLe, lt_asymm hab, hab] at h₁

theorem sortPairs_perm {β : Type} (l : List (Str × β)) : (sortPairs l).Perm l :=
  List.perm_insertionSort _ l

theorem sortPairs_sorted {β : Type} (l : List (Str × β)) :
    List.Sorted keyRel (sortPairs l) := by
  haveI : IsTotal (Str × β) keyRel := ⟨fun p q => strLe_total p.1 q.1⟩
  haveI : IsTrans (Str × β) keyRel := ⟨fun _ _ _ => strLe_trans⟩
  exact List.sorted_insertionSort keyRel l

theorem pairwise_keyLt_of_sorted_nodup {β : Type} {l : List (Str × β)}
    (hs : List.Sorted keyRel l) (hn : (l.map Prod.fst).Nodup) : l.Pairwise keyLt := by
  have hne : l.Pairwise (fun p q : Str × β => p.1 ≠ q.1) := List.pairwise_map.1 hn
  exact hs.imp₂ (fun _ _ h₁ h₂ => ⟨h₁, h₂⟩) hne

theorem sortPairs_eq_of_perm {β : Type} {l₁ l₂ : List (Str × β)} (hp : l₁.Perm l₂)
    (hn : (l₁.map Prod.fst).Nodup) : sortPairs l₁ = sortPairs l₂ := by
  haveI : IsAntisymm (Str × β) keyLt :=
    ⟨fun p q h₁ h₂ => absurd (strLe_antisymm h₁.1 h₂.1) h₁.2⟩
  have hn₁ : ((sortPairs l₁).map Prod.fst).Nodup :=
    (((sortPairs_perm l₁).map Prod.fst).nodup_iff).2 hn
  have hn₂ : ((sortPairs l₂).map Prod.fst).Nodup :=
    (((sortPairs_perm l₂).map Prod.fst).nodup_iff).2 (((hp.map Prod.fst).nodup_iff).1 hn)
  have hp' : (sortPairs l₁).Perm (sortPairs l₂) :=
    (sortPairs_perm l₁).trans (hp.trans (sortPairs_perm l₂).symm)
  exact List.eq_of_perm_of_sorted hp'
    (pairwise_keyLt_of_sorted_nodup (sortPairs_sorted l₁) hn₁)
    (pairwise_keyLt_of_sorted_nodup (sortPairs_sorted l₂) hn₂)

theorem sortPairs_idem {β : Type} (l : List (Str × β)) :
    sortPairs (sortPairs l) = sortPairs l :=
  List.Sorted.insertionSort_eq (sortPairs_sorted l)

theorem sortKeysFields_eq_map (kvs : List (Str × Jval)) :
    sortKeysFields kvs = kvs.map (fun p => (p.1, sortKeys p.2)) := by
  induction kvs with
  | nil => rfl
  | cons kv kvs ih => cases kv; simp [sortKeysFields, ih]

theorem sortKeysList_eq_map (vs : List Jval) : sortKeysList vs = vs.map sortKeys := by
  induction vs with
  | nil => rfl
  | cons v vs ih => simp [sortKeysList, ih]

theorem sortKeysFields_map_fst (kvs : List (Str × Jval)) :
    (sortKeysFields kvs).map Prod.fst = kvs.map Prod.fst := by
  rw [sortKeysFields_eq_map, List.map_map]
  rfl

theorem sortPairs_sortKeysFields_comm (kvs : List (Str × Jval)) :
    sortPairs (sortKeysFields kvs) = sortKeysFields (sortPairs kvs) := by
  rw [sortKeysFields_eq_map, sortKeysFields_eq_map]
  exact (List.map_insertionSort keyRel keyRel (fun p => (p.1, sortKeys p.2)) kvs
    (fun _ _ _ _ => Iff.rfl)).symm

theorem sizeOf_lt_of_mem_arr {x : Jval} {xs : List Jval} (hx : x ∈ xs) :
    sizeOf x < sizeOf (Jval.arr xs) := by
  induction xs with
  | nil => cases hx
  | cons y ys ih =>
    rcases List.mem_cons.1 hx with rfl | hx'
    · simp only [Jval.arr.sizeOf_spec, List.cons.sizeOf_spec]
      omega
    · have := ih hx'
      simp only [Jval.arr.sizeOf_spec, List.cons.sizeOf_spec] at this ⊢
      omega

theorem sizeOf_lt_of_mem_obj {k : Str} {v : Jval} {kvs : List (Str × Jval)}
    (hx : (k, v) ∈ kvs) : sizeOf v < sizeOf (Jval.obj kvs) := by
  induction kvs with
  | nil => cases hx
  | cons kw kws ih =>
    rcases List.mem_cons.1 hx with h | hx'
    · subst h
      simp only [Jval.obj.sizeOf_spec, List.cons.sizeOf_spec, Prod.mk.sizeOf_spec]
      omega
    · have := ih hx'
      simp only [Jval.obj.sizeOf_spec, List.cons.sizeOf_spec] at this ⊢
      omega

theorem nodupKeysList_mem {xs : List Jval} (h : nodupKeysList xs = true) :
    ∀ x ∈ xs, nodupKeys x = true := by
  induction xs with
  | nil => intro x hx; cases hx
  | cons y ys ih =>
    intro x hx
    simp only [nodupKeysList, Bool.and_eq_true] at h
    rcases List.mem_cons.1 hx with rfl | hx'
    · exact h.1
    · exact ih h.2 x hx'

theorem nodupKeysFields_mem {kvs : List (Str × Jval)} (h : nodupKeysFields kvs = true) :
    ∀ p ∈ kvs, nodupKeys p.2 = true := by
  induction kvs with
  | nil => intro p hp; cases hp
  | cons kw kws ih =>
    intro p hp
    obtain ⟨k, w⟩ := kw
    simp only [nodupKeysFields, Bool.and_eq_true] at h
    rcases List.mem_cons.1 hp with rfl | hp'
    · exact h.1
    · exact ih h.2 p hp'

theorem sizeOf_snd_lt_of_mem_obj {p : Str × Jval} {kvs : List (Str × Jval)}
    (hx : p ∈ kvs) : sizeOf p.2 < sizeOf (Jval.obj kvs) := by
  obtain ⟨k, v⟩ := p
  exact sizeOf_lt_of_mem_obj hx

theorem keyPermFields_map_fst : ∀ {kvs mid : List (Str × Jval)}, KeyPermFields kvs mid →
    kvs.map Prod.fst = mid.map Prod.fst := by
  intro kvs
  induction kvs with
  | nil => intro mid h; cases h; rfl
  | cons kv kvs ih =>
    intro mid h
    cases h with
    | cons hvw hrest => simpa using ih hrest

theorem sortKeys_congr_aux : ∀ n : Nat, ∀ v w : Jval, sizeOf v ≤ n → KeyPerm v w →
    nodupKeys v = true → sortKeys v = sortKeys w := by
  intro n
  induction n with
  | zero =>
    intro v w hsz _ _
    cases v <;> simp_all
  | succ n ih =>
    intro v w hsz hkp hnd
    cases hkp with
    | null => rfl
    | bool b => rfl
    | num m => rfl
    | str s => rfl
    | arr hl =>
      rename_i xs ys
      have hmem : ∀ x ∈ xs, sizeOf x ≤ n ∧ nodupKeys x = true := by
        intro x hx
        refine ⟨?_, nodupKeysList_mem hnd x hx⟩
        have := sizeOf_lt_of_mem_arr hx
        omega
      simp only [sortKeys]
      congr 1
      clear hsz hnd
      have hlist : ∀ xs' ys' : List Jval, KeyPermList xs' ys' →
          (∀ x ∈ xs', sizeOf x ≤ n ∧ nodupKeys x = true) →
          sortKeysList xs' = sortKeysList ys' := by
        intro xs'
        induction xs' with
        | nil => intro ys' h _; cases h; rfl
        | cons x xs₀ ihl =>
          intro ys' h hm
          cases h with
          | cons hxy hrest =>
            simp only [sortKeysList]
            rw [ih x _ (hm x (List.mem_cons_self x xs₀)).1 hxy
                 (hm x (List.mem_cons_self x xs₀)).2,
               ihl _ hrest (fun z hz => hm z (List.mem_cons_of_mem x hz))]
      exact hlist xs ys hl hmem
    | obj hf hperm =>
      rename_i kvs mid kvs'
      simp only [nodupKeys, Bool.and_eq_true, decide_eq_true_eq] at hnd
      have hmem : ∀ p ∈ kvs, sizeOf p.2 ≤ n ∧ nodupKeys p.2 = true := by
        intro p hp
        refine ⟨?_, nodupKeysFields_mem hnd.2 p hp⟩
        have := sizeOf_snd_lt_of_mem_obj hp
        omega
      have hstep1 : sortKeysFields kvs = sortKeysFields mid := by
        clear hsz hperm
        have hfields : ∀ kvs₀ mid₀ : List (Str × Jval), KeyPermFields kvs₀ mid₀ →
            (∀ p ∈ kvs₀, sizeOf p.2 ≤ n ∧ nodupKeys p.2 = true) →
            sortKeysFields kvs₀ = sortKeysFields mid₀ := by
          intro kvs₀
          induction kvs₀ with
          | nil => intro mid₀ h _; cases h; rfl
          | cons kv kvs₁ ihf =>
            intro mid₀ h hm
            cases h with
            | cons hvw hrest =>
              rename_i k v' w' kvs₂
              simp only [sortKeysFields]
              rw [ih v' w' (hm (k, v') (List.mem_cons_self _ _)).1 hvw
                   (hm (k, v') (List.mem_cons_self _ _)).2,
                 ihf _ hrest (fun p hp => hm p (List.mem_cons_of_mem _ hp))]
        exact hfields kvs mid hf hmem
      have hstep2 : (sortKeysFields mid).Perm (sortKeysFields kvs') := by
        rw [sortKeysFields_eq_map, sortKeysFields_eq_map]
        exact hperm.map _
      have hnodup : ((sortKeysFields mid).map Prod.fst).Nodup := by
        rw [sortKeysFields_map_fst, ← keyPermFields_map_fst hf]
        exact hnd.1
      simp only [sortKeys]
      congr 1
      rw [hstep1]
      exact sortPairs_eq_of_perm hstep2 hnodup

theorem sortKeys_congr {v w : Jval} (hkp : KeyPerm v w) (hnd : nodupKeys v = true) :
    sortKeys v = sortKeys w :=
  sortKeys_congr_aux (sizeOf v) v w le_rfl hkp hnd

theorem sortKeysFields_eq_self {l : List (Str × Jval)}
    (h : ∀ p ∈ l, sortKeys p.2 = p.2) : sortKeysFields l = l := by
  induction l with
  | nil => rfl
  | cons kv kvs ih =>
    obtain ⟨k, v⟩ := kv
    simp only [sortKeysFields]
    rw [h (k, v) (List.mem_cons_self _ _), ih (fun p hp => h p (List.mem_cons_of_mem _ hp))]

theorem sortKeysList_eq_self {l : List Jval} (h : ∀ x ∈ l, sortKeys x = x) :
    sortKeysList l = l := by
  induction l with
  | nil => rfl
  | cons v vs ih =>
    simp only [sortKeysList]
    rw [h v (List.mem_cons_self _ _), ih (fun x hx => h x (List.mem_cons_of_mem _ hx))]

theorem sortKeys_idem_aux : ∀ n : Nat, ∀ v : Jval, sizeOf v ≤ n →
    sortKeys (sortKeys v) = sortKeys v := by
  intro n
  induction n with
  | zero =>
    intro v hsz
    cases v <;> simp_all
  | succ n ih =>
    intro v hsz
    cases v with
    | null => rfl
    | bool b => rfl
    | num m => rfl
    | str s => rfl
    | arr xs =>
      simp only [sortKeys]
      congr 1
      rw [sortKeysList_eq_map, sortKeysList_eq_map, List.map_map]
      refine List.map_congr_left ?_
      intro x hx
      have hlt := sizeOf_lt_of_mem_arr hx
      exact ih x (by omega)
    | obj kvs =>
      simp only [sortKeys]
      congr 1
      have hself : sortKeysFields (sortPairs (sortKeysFields kvs)) = sortPairs (sortKeysFields kvs) := by
        apply sortKeysFields_eq_self
        intro p hp
        have hp₁ : p ∈ sortKeysFields kvs := (sortPairs_perm _).subset hp
        rw [sortKeysFields_eq_map] at hp₁
        obtain ⟨q, hq, rfl⟩ := List.mem_map.1 hp₁
        have hlt := sizeOf_snd_lt_of_mem_obj hq
        exact ih q.2 (by omega)
      rw [hself, sortPairs_idem]

theorem sortKeys_idem (v : Jval) : sortKeys (sortKeys v) = sortKeys v :=
  sortKeys_idem_aux (sizeOf v) v le_rfl

theorem splitNl_no_nl {a : Str} (h : '\n' ∉ a) : splitNl a = [a] := by
  induction a with
  | nil => rfl
  | cons c cs ih =>
    have hc : c ≠ '\n' := fun hh => h (hh ▸ List.mem_cons_self c cs)
    have hcs : '\n' ∉ cs := fun hh => h (List.mem_cons_of_mem c hh)
    simp only [splitNl, if_neg hc, ih hcs]

theorem splitNl_append_nl {a : Str} (rest : Str) (h : '\n' ∉ a) :
    splitNl (a ++ '\n' :: rest) = a :: splitNl rest := by
  induction a with
  | nil => simp [splitNl]
  | cons c cs ih =>
    have hc : c ≠ '\n' := fun hh => h (hh ▸ List.mem_cons_self c cs)
    have hcs : '\n' ∉ cs := fun hh => h (List.mem_cons_of_mem c hh)
    simp only [List.cons_append, splitNl, if_neg hc, List.append_eq]
    rw [ih hcs]

theorem splitNl_encodeMemo {t h ts : Str} (ht : '\n' ∉ t) (hh : '\n' ∉ h)
    (hts : '\n' ∉ ts) :
    splitNl (encodeMemo t h ts) =
      ["OpenTreasury Proof (OTMS v1)".data, "Treasury: ".data ++ t,
       "Hash: ".data ++ h, "Timestamp: ".data ++ ts] := by
  have h₁ : '\n' ∉ "OpenTreasury Proof (OTMS v1)".data := by decide
  have h₂ : '\n' ∉ "Treasury: ".data ++ t := by
    intro hm
    rcases List.mem_append.1 hm with hm | hm
    · exact absurd hm (by decide)
    · exact ht hm
  have h₃ : '\n' ∉ "Hash: ".data ++ h := by
    intro hm
    rcases List.mem_append.1 hm with hm | hm
    · exact absurd hm (by decide)
    · exact hh hm
  have h₄ : '\n' ∉ "Timestamp: ".data ++ ts := by
    intro hm
    rcases List.mem_append.1 hm with hm | hm
    · exact absurd hm (by decide)
    · exact hts hm
  show splitNl ("OpenTreasury Proof (OTMS v1)".data ++ '\n' ::
    (("Treasury: ".data ++ t) ++ '\n' :: (("Hash: ".data ++ h) ++ '\n' ::
      ("Timestamp: ".data ++ ts)))) = _
  rw [splitNl_append_nl _ h₁, splitNl_append_nl _ h₂, splitNl_append_nl _ h₃,
      splitNl_no_nl h₄]

theorem not_ws_mem_dropWhile {s : Str} (h : ∀ c ∈ s, isWsJs c = false) :
    s.dropWhile isWsJs = s := by
  cases s with
  | nil => rfl
  | cons c cs => simp [List.dropWhile, h c (List.mem_cons_self c cs)]

theorem trimJs_eq_self_of_no_ws {s : Str} (h : ∀ c ∈ s, isWsJs c = false) :
    trimJs s = s := by
  unfold trimJs
  rw [not_ws_mem_dropWhile h, not_ws_mem_dropWhile, List.reverse_reverse]
  intro c hc
  exact h c (List.mem_reverse.1 hc)

theorem dropWhile_eq_self_of_trim_stable {t : Str} (h : trimJs t = t) :
    t.dropWhile isWsJs = t := by
  have h₁ : (trimJs t).length ≤ (t.dropWhile isWsJs).length := by
    unfold trimJs
    rw [List.length_reverse]
    calc ((t.dropWhile isWsJs).reverse.dropWhile isWsJs).length
        ≤ (t.dropWhile isWsJs).reverse.length :=
          (List.dropWhile_sublist _).length_le
      _ = (t.dropWhile isWsJs).length := List.length_reverse _
  have h₂ : (t.dropWhile isWsJs).length ≤ t.length :=
    (List.dropWhile_sublist _).length_le
  rw [h] at h₁
  exact (List.dropWhile_sublist isWsJs).eq_of_length (by omega)

theorem ws_char_cases {c : Char} (h : isWsJs c = true) :
    c = ' ' ∨ c = '\t' ∨ c = '\n' ∨ c = '\r' ∨ c = '\x0b' ∨ c = '\x0c' := by
  simpa [isWsJs, or_assoc] using h

theorem hex_not_ws {c : Char} (h : isHexDigit c = true) : isWsJs c = false := by
  cases hw : isWsJs c
  · rfl
  · rcases ws_char_cases hw with rfl | rfl | rfl | rfl | rfl | rfl <;>
      exact absurd h (by decide)

theorem hex_no_nl {s : Str} (h : ∀ c ∈ s, isHexDigit c = true) : '\n' ∉ s := by
  intro hm
  exact absurd (h '\n' hm) (by decide)

theorem bool_not_true {b : Bool} (h : b = false) : ¬ b = true := by simp [h]

theorem decodeField_encodeMemo {t h ts : Str} (ht : '\n' ∉ t) (htt : trimJs t = t)
    (hh : ∀ c ∈ h, isHexDigit c = true) (hts : '\n' ∉ ts) (htts : trimJs ts = ts) :
    decodeField "treasury:".data (encodeMemo t h ts) = t ∧
    decodeField "hash:".data (encodeMemo t h ts) = h ∧
    decodeField "timestamp:".data (encodeMemo t h ts) = ts := by
  have hsplit := splitNl_encodeMemo ht (hex_no_nl hh) hts
  have hdropH : h.dropWhile isWsJs = h :=
    not_ws_mem_dropWhile (fun c hc => hex_not_ws (hh c hc))
  have htrimH : trimJs h = h :=
    trimJs_eq_self_of_no_ws (fun c hc => hex_not_ws (hh c hc))
  refine ⟨?_, ?_, ?_⟩
  · unfold decodeField
    rw [hsplit, List.find?_cons_of_neg _ (bool_not_true rfl),
        List.find?_cons_of_pos _ rfl]
    show trimJs ((("Treasury: ".data ++ t).drop 9).dropWhile isWsJs) = t
    rw [show ("Treasury: ".data ++ t).drop 9 = ' ' :: t from rfl]
    rw [show (' ' :: t).dropWhile isWsJs = t.dropWhile isWsJs from rfl,
        dropWhile_eq_self_of_trim_stable htt, htt]
  · unfold decodeField
    rw [hsplit, List.find?_cons_of_neg _ (bool_not_true rfl),
        List.find?_cons_of_neg _ (bool_not_true rfl),
        List.find?_cons_of_pos _ rfl]
    show trimJs ((("Hash: ".data ++ h).drop 5).dropWhile isWsJs) = h
    rw [show ("Hash: ".data ++ h).drop 5 = ' ' :: h from rfl]
    rw [show (' ' :: h).dropWhile isWsJs = h.dropWhile isWsJs from rfl, hdropH, htrimH]
  · unfold decodeField
    rw [hsplit, List.find?_cons_of_neg _ (bool_not_true rfl),
        List.find?_cons_of_neg _ (bool_not_true rfl),
        List.find?_cons_of_neg _ (bool_not_true rfl),
        List.find?_cons_of_pos _ rfl]
    show trimJs ((("Timestamp: ".data ++ ts).drop 10).dropWhile isWsJs) = ts
    rw [show ("Timestamp: ".data ++ ts).drop 10 = ' ' :: ts from rfl]
    rw [show (' ' :: ts).dropWhile isWsJs = ts.dropWhile isWsJs from rfl,
        dropWhile_eq_self_of_trim_stable htts, htts]

theorem length_filter_lt_of_mem {α : Type} {l : List α} {p q : α → Bool} {a : α}
    (ha : a ∈ l) (hpa : p a = false) (hqa : q a = true)
    (himp : ∀ x ∈ l, p x = true → q x = true) :
    (l.filter p).length < (l.filter q).length := by
  induction l with
  | nil => cases ha
  | cons b bs ih =>
    have hmono : (bs.filter p).length ≤ (bs.filter q).length := by
      rw [← List.countP_eq_length_filter, ← List.countP_eq_length_filter]
      exact List.countP_mono_left (fun x hx => himp x (List.mem_cons_of_mem _ hx))
    rcases List.mem_cons.1 ha with rfl | ha'
    · simp only [List.filter_cons, hpa, hqa]
      simp only [Bool.false_eq_true, if_false, if_true, List.length_cons]
      omega
    · have hlt := ih ha' (fun x hx => himp x (List.mem_cons_of_mem _ hx))
      cases hpb : p b
      · cases hqb : q b
        · simp only [List.filter_cons, hpb, hqb]
          simp only [Bool.false_eq_true, if_false]
          omega
        · simp only [List.filter_cons, hpb, hqb]
          simp only [Bool.false_eq_true, if_false, if_true, List.length_cons]
          omega
      · have hqb : q b = true := himp b (List.mem_cons_self _ _) hpb
        simp only [List.filter_cons, hpb, hqb]
        simp only [if_true, List.length_cons]
        omega

theorem unseenCount_mono {hlen : Nat} {seen seen' : List Nat} (hsub : seen ⊆ seen') :
    unseenCount hlen seen' ≤ unseenCount hlen seen := by
  unfold unseenCount
  rw [← List.countP_eq_length_filter, ← List.countP_eq_length_filter]
  apply List.countP_mono_left
  intro x _ hx
  simp only [decide_eq_true_eq] at hx ⊢
  exact fun hc => hx (hsub hc)

theorem unseenCount_cons_lt {hlen a : Nat} {seen : List Nat} (ha : a < hlen)
    (hns : a ∉ seen) : unseenCount hlen (a :: seen) < unseenCount hlen seen := by
  unfold unseenCount
  apply length_filter_lt_of_mem (List.mem_range.2 ha)
  · simp
  · simpa using hns
  · intro x _ hx
    simp only [decide_eq_true_eq] at hx ⊢
    exact fun hc => hx (List.mem_cons_of_mem _ hc)

theorem unseenCount_le (hlen : Nat) (seen : List Nat) : unseenCount hlen seen ≤ hlen := by
  unfold unseenCount
  calc ((List.range hlen).filter _).length ≤ (List.range hlen).length :=
        List.length_filter_le _ _
    _ = hlen := List.length_range hlen

theorem mapThread_total {h : Heap} {fuel : Nat}
    (hgo : ∀ seen v, grefOk h.length v = true → unseenCount h.length seen < fuel →
      ∃ y seen', sorterG h fuel seen v = some (y, seen') ∧ seen ⊆ seen') :
    ∀ seen l, (∀ x ∈ l, grefOk h.length x = true) → unseenCount h.length seen < fuel →
    ∃ ys seen', mapThread (sorterG h fuel) seen l = some (ys, seen') ∧ seen ⊆ seen' := by
  intro seen l
  induction l generalizing seen with
  | nil => intro _ _; exact ⟨[], seen, rfl, List.Subset.refl seen⟩
  | cons x xs ihl =>
    intro hall hcnt
    obtain ⟨y, seen₁, hx, hsub₁⟩ := hgo seen x (hall x (List.mem_cons_self _ _)) hcnt
    have hcnt₁ : unseenCount h.length seen₁ < fuel :=
      lt_of_le_of_lt (unseenCount_mono hsub₁) hcnt
    obtain ⟨ys, seen₂, hxs, hsub₂⟩ :=
      ihl seen₁ (fun z hz => hall z (List.mem_cons_of_mem _ hz)) hcnt₁
    refine ⟨y :: ys, seen₂, ?_, hsub₁.trans hsub₂⟩
    simp [mapThread, hx, hxs]

theorem mapThreadFields_total {h : Heap} {fuel : Nat}
    (hgo : ∀ seen v, grefOk h.length v = true → unseenCount h.length seen < fuel →
      ∃ y seen', sorterG h fuel seen v = some (y, seen') ∧ seen ⊆ seen') :
    ∀ seen l, (∀ p ∈ l, grefOk h.length (Prod.snd p) = true) →
    unseenCount h.length seen < fuel →
    ∃ ys seen', mapThreadFields (sorterG h fuel) seen l = some (ys, seen') ∧ seen ⊆ seen' := by
  intro seen l
  induction l generalizing seen with
  | nil => intro _ _; exact ⟨[], seen, rfl, List.Subset.refl seen⟩
  | cons kv kvs ihl =>
    intro hall hcnt
    obtain ⟨k, v⟩ := kv
    obtain ⟨y, seen₁, hx, hsub₁⟩ := hgo seen v (hall (k, v) (List.mem_cons_self _ _)) hcnt
    have hcnt₁ : unseenCount h.length seen₁ < fuel :=
      lt_of_le_of_lt (unseenCount_mono hsub₁) hcnt
    obtain ⟨ys, seen₂, hxs, hsub₂⟩ :=
      ihl seen₁ (fun z hz => hall z (List.mem_cons_of_mem _ hz)) hcnt₁
    refine ⟨(k, y) :: ys, seen₂, ?_, hsub₁.trans hsub₂⟩
    simp [mapThreadFields, hx, hxs]

theorem sorterG_total_aux (h : Heap) (hok : heapOk h = true) :
    ∀ fuel seen v, grefOk h.length v = true → unseenCount h.length seen < fuel →
    ∃ y seen', sorterG h fuel seen v = some (y, seen') ∧ seen ⊆ seen' := by
  intro fuel
  induction fuel with
  | zero =>
    intro seen v _ hcnt
    omega
  | succ fuel' ih =>
    intro seen v hv hcnt
    cases v with
    | gnull => exact ⟨.snull, seen, rfl, List.Subset.refl seen⟩
    | gbool b => exact ⟨.sbool b, seen, rfl, List.Subset.refl seen⟩
    | gnum n => exact ⟨.snum n, seen, rfl, List.Subset.refl seen⟩
    | gstr s => exact ⟨.sstr s, seen, rfl, List.Subset.refl seen⟩
    | gref a =>
      by_cases hseen : a ∈ seen
      · exact ⟨.sref a, seen, by simp [sorterG, hseen], List.Subset.refl seen⟩
      · have ha : a < h.length := by simpa [grefOk] using hv
        obtain ⟨o, ho⟩ : ∃ o, h[a]? = some o := ⟨_, List.getElem?_eq_getElem ha⟩
        have homem : o ∈ h := by
          have hg := List.getElem?_eq_getElem ha
          rw [ho] at hg
          exact (Option.some.inj hg) ▸ List.getElem_mem ha
        have hobj : gobjOk h.length o = true := List.all_eq_true.1 hok o homem
        have hsubA : seen ⊆ a :: seen := List.subset_cons_self a seen
        have hcnt' : unseenCount h.length (a :: seen) < fuel' := by
          have h1 := unseenCount_cons_lt ha hseen
          omega
        cases o with
        | garr elems =>
          have helems : ∀ x ∈ elems, grefOk h.length x = true := by
            have hb : elems.all (grefOk h.length) = true := hobj
            exact fun x hx => List.all_eq_true.1 hb x hx
          obtain ⟨ys, seen', hrun, hsub⟩ :=
            mapThread_total ih (a :: seen) elems helems hcnt'
          refine ⟨.sarr ys, seen', ?_, hsubA.trans hsub⟩
          simp [sorterG, hseen, ho, hrun]
        | gobj fields =>
          have hfields : ∀ p ∈ sortPairs fields, grefOk h.length (Prod.snd p) = true := by
            intro p hp
            have hp' : p ∈ fields := (sortPairs_perm fields).subset hp
            have hb : fields.all (fun q => grefOk h.length q.2) = true := hobj
            exact List.all_eq_true.1 hb p hp'
          obtain ⟨ys, seen', hrun, hsub⟩ :=
            mapThreadFields_total ih (a :: seen) (sortPairs fields) hfields hcnt'
          refine ⟨.sobj ys, seen', ?_, hsubA.trans hsub⟩
          simp [sorterG, hseen, ho, hrun]

theorem sorterG_total {h : Heap} {v : GVal} (hok : heapOk h = true)
    (hv : grefOk h.length v = true) :
    (sorterG h (h.length + 1) [] v).isSome = true := by
  have hcnt : unseenCount h.length [] < h.length + 1 :=
    lt_of_le_of_lt (unseenCount_le h.length []) (Nat.lt_succ_self _)
  obtain ⟨y, seen', hrun, _⟩ := sorterG_total_aux h hok (h.length + 1) [] v hv hcnt
  simp [hrun]

theorem saveMeta_public {urlProtocol : Str → Option Str} {s : AppState}
    (hp : s.isPublicView = true) : saveMeta urlProtocol s = s := by
  unfold saveMeta
  cases s.selectedSig with
  | none => rfl
  | some sig => simp [hp]

theorem clearMeta_public {s : AppState} (hp : s.isPublicView = true) :
    clearMeta s = s := by
  unfold clearMeta
  cases s.selectedSig with
  | none => rfl
  | some sig => simp [hp]

theorem saveMeta_isPublicView (urlProtocol : Str → Option Str) (s : AppState) :
    (saveMeta urlProtocol s).isPublicView = s.isPublicView := by
  unfold saveMeta
  cases s.selectedSig with
  | none => rfl
  | some sig =>
    dsimp only
    split_ifs <;> rfl

theorem saveMeta_proofHash (urlProtocol : Str → Option Str) (s : AppState) :
    (saveMeta urlProtocol s).proofHash = s.proofHash := by
  unfold saveMeta
  cases s.selectedSig with
  | none => rfl
  | some sig =>
    dsimp only
    split_ifs <;> rfl

theorem clearMeta_isPublicView (s : AppState) :
    (clearMeta s).isPublicView = s.isPublicView := by
  unfold clearMeta
  cases s.selectedSig with
  | none => rfl
  | some sig =>
    dsimp only
    split_ifs <;> rfl

theorem clearMeta_proofHash (s : AppState) :
    (clearMeta s).proofHash = s.proofHash := by
  unfold clearMeta
  cases s.selectedSig with
  | none => rfl
  | some sig =>
    dsimp only
    split_ifs <;> rfl

theorem anchorProofOnChain_isPublicView (provider : Option WalletProvider) (now : Str)
    (s : AppState) : (anchorProofOnChain provider now s).1.isPublicView = s.isPublicView := by
  unfold anchorProofOnChain
  cases provider with
  | none => rfl
  | some p =>
    obtain ⟨pubk, cap⟩ := p
    cases pubk with
    | none => rfl
    | some pk =>
      dsimp only
      split_ifs
      · rfl
      · cases cap <;> rfl

theorem anchorProofOnChain_proofHash (provider : Option WalletProvider) (now : Str)
    (s : AppState) : (anchorProofOnChain provider now s).1.proofHash = s.proofHash := by
  unfold anchorProofOnChain
  cases provider with
  | none => rfl
  | some p =>
    obtain ⟨pubk, cap⟩ := p
    cases pubk with
    | none => rfl
    | some pk =>
      dsimp only
      split_ifs
      · rfl
      · cases cap <;> rfl

theorem step_isPublicView (urlProtocol : Str → Option Str) (s : AppState) (e : AppEvent) :
    (step urlProtocol s e).1.isPublicView = s.isPublicView := by
  cases e with
  | evSelect sig =>
    show (selectTx sig s).isPublicView = s.isPublicView
    unfold selectTx
    split_ifs <;> rfl
  | evEditLabel l => rfl
  | evEditOther x => rfl
  | evEditNote x => rfl
  | evEditProof x => rfl
  | evSave => exact saveMeta_isPublicView urlProtocol s
  | evClear => exact clearMeta_isPublicView s
  | evGenerate now =>
    show (if s.isPublicView then (s, []) else (generateProof now s, [])).1.isPublicView = _
    split_ifs <;> rfl
  | evAnchor provider now =>
    show (if s.isPublicView then (s, []) else anchorProofOnChain provider now s).1.isPublicView = _
    split_ifs with hpv
    · rfl
    · exact anchorProofOnChain_isPublicView provider now s
  | evSetTreasury t => rfl

theorem step_public_proofHash (urlProtocol : Str → Option Str) (s : AppState)
    (e : AppEvent) (hp : s.isPublicView = true) :
    (step urlProtocol s e).1.proofHash = s.proofHash ∨
      (step urlProtocol s e).1.proofHash = [] := by
  cases e with
  | evSelect sig =>
    left
    show (selectTx sig s).proofHash = s.proofHash
    unfold selectTx
    simp [hp]
  | evEditLabel l => left; rfl
  | evEditOther x => left; rfl
  | evEditNote x => left; rfl
  | evEditProof x => left; rfl
  | evSave => left; exact saveMeta_proofHash urlProtocol s
  | evClear => left; exact clearMeta_proofHash s
  | evGenerate now =>
    left
    show (if s.isPublicView then (s, []) else (generateProof now s, [])).1.proofHash = _
    simp [hp]
  | evAnchor provider now =>
    left
    show (if s.isPublicView then (s, []) else anchorProofOnChain provider now s).1.proofHash = _
    simp [hp]
  | evSetTreasury t => right; rfl

theorem reachable_public_proofHash_empty {urlProtocol : Str → Option Str} {s : AppState}
    (hr : Reachable urlProtocol s) (hp : s.isPublicView = true) : s.proofHash = [] := by
  induction hr with
  | init pv t store₀ => rfl
  | next e hr ih =>
    rename_i s₀
    have hpv : s₀.isPublicView = true := by
      rw [← step_isPublicView urlProtocol s₀ e]
      exact hp
    rcases step_public_proofHash urlProtocol s₀ e hpv with h | h
    · rw [h, ih hpv]
    · exact h

/-- C1: Canonical determinism — for any JSON-like value (carrying the JS
object invariant of duplicate-free keys at every depth), re-ordering the
keys of any object, at any nesting depth, before canonicalizing yields
the byte-identical `stableStringify` output, and hence the identical
SHA-256 digest. -/
theorem c1_canonical_determinism {v w : Jval} (hnd : nodupKeys v = true)
    (hkp : KeyPerm v w) :
    stableStringify v = stableStringify w ∧
      sha256Hex (stableStringify v) = sha256Hex (stableStringify w) := by
  have h := sortKeys_congr hkp hnd
  unfold stableStringify
  rw [h]
  exact ⟨rfl, rfl⟩

/-- Witness for C1 at the specification's own example: `{"b":1,"a":2}`
and `{"a":2,"b":1}` canonicalize to the same string and digest. -/
theorem c1_witness :
    stableStringify (Jval.obj [("b".data, .num 1), ("a".data, .num 2)]) =
      stableStringify (Jval.obj [("a".data, .num 2), ("b".data, .num 1)]) ∧
    sha256Hex (stableStringify (Jval.obj [("b".data, .num 1), ("a".data, .num 2)])) =
      sha256Hex (stableStringify (Jval.obj [("a".data, .num 2), ("b".data, .num 1)])) :=
  c1_canonical_determinism (by decide)
    (KeyPerm.obj
      (KeyPermFields.cons (KeyPerm.num 1)
        (KeyPermFields.cons (KeyPerm.num 2) KeyPermFields.nil))
      (List.Perm.swap ("a".data, Jval.num 2) ("b".data, Jval.num 1) []))

/-- C2: Canonicalization idempotence —
`canonicalize(parse(canonicalize(v))) = canonicalize(v)` for every value
of the data model, with `JSON.parse` of the canonical output modelled
semantically by `parseOfCanonical` (the canonical output prints the tree
`sortKeys v`, and parsing a printed JSON text returns the tree it
prints). -/
theorem c2_canonicalize_idempotent (v : Jval) :
    stableStringify (parseOfCanonical v) = stableStringify v := by
  unfold parseOfCanonical stableStringify
  rw [sortKeys_idem]

/-- C5 (amended): the canonicalizer's recursive key-sort pass terminates
on every well-formed input graph — cyclic ones included, a revisited
reference short-circuits via the `seen` set — but on a cyclic input the
subsequent `JSON.stringify` step throws its circular-structure error
instead of returning a string (see the counterexample). -/
theorem c5_sorter_terminates {h : Heap} {v : GVal} (hok : heapOk h = true)
    (hv : grefOk h.length v = true) :
    (sorterG h (h.length + 1) [] v).isSome = true :=
  sorterG_total hok hv

/-- Witness for C5 on the one-object cycle `obj.self = obj`: the sort
pass terminates. -/
theorem c5_witness :
    (sorterG [GObj.gobj [("self".data, GVal.gref 0)]] 2 [] (GVal.gref 0)).isSome = true :=
  c5_sorter_terminates (by decide) (by decide)

/-- C5 counterexample: on the self-referential input `obj.self = obj`
the full canonicalizer does not return a string — the sorter returns the
revisited reference raw, and `JSON.stringify` then throws its
circular-structure `TypeError` (`.circular`). -/
theorem c5_counterexample :
    stableStringifyG [GObj.gobj [("self".data, GVal.gref 0)]] (GVal.gref 0) = .circular := by
  decide

/-- C6: the verifier rejects empty inputs without touching the network —
whenever the trimmed transaction id or the trimmed document JSON text is
empty, the result is the corresponding missing-input verdict and the
ledger query (`getParsedTransaction`) is not performed. -/
theorem c6_verify_rejects_empty (jparse : Str → Option Jval)
    (getTx : Str → Option ParsedTx) (tx json : Str)
    (hempty : trimJs tx = [] ∨ trimJs json = []) :
    ((verifyProof jparse getTx tx json).1 = .missingTx ∨
     (verifyProof jparse getTx tx json).1 = .missingJson) ∧
    (verifyProof jparse getTx tx json).2 = false := by
  unfold verifyProof
  rcases hempty with h | h
  · simp [h]
  · by_cases h2 : trimJs tx = []
    · simp [h2]
    · simp [h2, h]

/-- Witness for C6: a whitespace-only transaction id is rejected as
missing input with no ledger query. -/
theorem c6_witness :
    ((verifyProof (fun _ => none) (fun _ => none) "  ".data "x".data).1 = .missingTx ∨
     (verifyProof (fun _ => none) (fun _ => none) "  ".data "x".data).1 = .missingJson) ∧
    (verifyProof (fun _ => none) (fun _ => none) "  ".data "x".data).2 = false :=
  c6_verify_rejects_empty (fun _ => none) (fun _ => none) "  ".data "x".data
    (Or.inl (by decide))

/-- C8: Document Builder shape — for every annotation map, `buildOTMS`
yields version 1, the constant standard tag "OTMS", exactly one entry
per stored annotation in iteration order, and in every entry a missing
note becomes the empty description and a missing proof URL the empty
proof URL string (the entry fields are plain strings, never null or
omitted). -/
theorem c8_buildOTMS_shape (treasury now : Str) (meta : List (Str × TxMeta)) :
    (buildOTMS treasury now meta).version = 1 ∧
    (buildOTMS treasury now meta).standard = "OTMS".data ∧
    (buildOTMS treasury now meta).entries.length = meta.length ∧
    ∀ i : Nat, (buildOTMS treasury now meta).entries[i]? =
      (meta[i]?).map (fun p =>
        { signature := p.1
          category := p.2.label
          description := p.2.note.getD []
          proofUrl := p.2.proofUrl.getD [] }) := by
  refine ⟨rfl, rfl, by simp [buildOTMS], ?_⟩
  intro i
  simp [buildOTMS]

/-- C10: validation failure is atomic — with a transaction selected in
the interactive view, saving with a non-empty supporting link that is
not a valid http(s) URL leaves the annotation map and the persisted
store entry unchanged; only the error message is produced. -/
theorem c10_save_invalid_url_atomic (urlProtocol : Str → Option Str) (s : AppState)
    (sig : Str) (hsel : s.selectedSig = some sig) (hpv : s.isPublicView = false)
    (hne : trimJs s.editProof ≠ [])
    (hbad : isValidHttpUrl urlProtocol (trimJs s.editProof) = false) :
    (saveMeta urlProtocol s).meta = s.meta ∧
    (saveMeta urlProtocol s).store = s.store ∧
    (saveMeta urlProtocol s).saveMsg =
      "❌ Supporting Link must be a valid http(s) URL.".data := by
  unfold saveMeta
  rw [hsel]
  dsimp only
  rw [if_neg (by simp [hpv]), if_pos ⟨hne, hbad⟩]
  exact ⟨rfl, rfl, rfl⟩

/-- Witness for C10: a concrete editor state with the invalid link
"not a url" saves nothing and reports the validation error. -/
theorem c10_witness :
    (saveMeta (fun _ => none) editBadUrlState).meta = editBadUrlState.meta ∧
    (saveMeta (fun _ => none) editBadUrlState).store = editBadUrlState.store ∧
    (saveMeta (fun _ => none) editBadUrlState).saveMsg =
      "❌ Supporting Link must be a valid http(s) URL.".data :=
  c10_save_invalid_url_atomic (fun _ => none) editBadUrlState "SIG1".data rfl rfl
    (by decide) (by decide)

/-- C9 (amended): in read-only (public) view the save and remove entry
points and the anchor dispatch leave the annotation map and the
persisted store unchanged and perform no ledger write; the anchor
handler itself carries no view-mode guard (see the counterexample), but
its control is not rendered in read-only view, every reachable read-only
state has an empty proof hash, and with an empty proof hash the handler
performs no ledger write and leaves the map and store unchanged. -/
theorem c9_readonly_no_mutation (urlProtocol : Str → Option Str) :
    (∀ s : AppState, s.isPublicView = true →
      ((step urlProtocol s .evSave).1.meta = s.meta ∧
       (step urlProtocol s .evSave).1.store = s.store ∧
       (step urlProtocol s .evSave).2 = []) ∧
      ((step urlProtocol s .evClear).1.meta = s.meta ∧
       (step urlProtocol s .evClear).1.store = s.store ∧
       (step urlProtocol s .evClear).2 = []) ∧
      (∀ (provider : Option WalletProvider) (now : Str),
        (step urlProtocol s (.evAnchor provider now)).1.meta = s.meta ∧
        (step urlProtocol s (.evAnchor provider now)).1.store = s.store ∧
        (step urlProtocol s (.evAnchor provider now)).2 = [])) ∧
    (∀ s : AppState, Reachable urlProtocol s → s.isPublicView = true →
      s.proofHash = []) ∧
    (∀ (provider : Option WalletProvider) (now : Str) (s : AppState),
      s.proofHash = [] →
      (anchorProofOnChain provider now s).1.meta = s.meta ∧
      (anchorProofOnChain provider now s).1.store = s.store ∧
      (anchorProofOnChain provider now s).2 = []) := by
  refine ⟨?_, ?_, ?_⟩
  · intro s hp
    refine ⟨?_, ?_, ?_⟩
    · show (saveMeta urlProtocol s, ([] : List Str)).1.meta = s.meta ∧
          (saveMeta urlProtocol s, ([] : List Str)).1.store = s.store ∧
          (saveMeta urlProtocol s, ([] : List Str)).2 = []
      rw [saveMeta_public hp]
      exact ⟨rfl, rfl, rfl⟩
    · show (clearMeta s, ([] : List Str)).1.meta = s.meta ∧
          (clearMeta s, ([] : List Str)).1.store = s.store ∧
          (clearMeta s, ([] : List Str)).2 = []
      rw [clearMeta_public hp]
      exact ⟨rfl, rfl, rfl⟩
    · intro provider now
      show (if s.isPublicView then (s, ([] : List Str))
            else anchorProofOnChain provider now s).1.meta = s.meta ∧
          (if s.isPublicView then (s, ([] : List Str))
            else anchorProofOnChain provider now s).1.store = s.store ∧
          (if s.isPublicView then (s, ([] : List Str))
            else anchorProofOnChain provider now s).2 = []
      rw [if_pos (by simp [hp])]
      exact ⟨rfl, rfl, rfl⟩
  · intro s hr hp
    exact reachable_public_proofHash_empty hr hp
  · intro provider now s hph
    unfold anchorProofOnChain
    cases provider with
    | none => exact ⟨rfl, rfl, rfl⟩
    | some p =>
      obtain ⟨pubk, cap⟩ := p
      cases pubk with
      | none => exact ⟨rfl, rfl, rfl⟩
      | some pk =>
        dsimp only
        rw [if_pos hph]
        exact ⟨rfl, rfl, rfl⟩

/-- Witness for C9 (amended) at concrete states: a read-only state with
the save event, and a fresh read-only page load fed to the anchor
handler. -/
theorem c9_witness :
    ((step (fun _ => none) pubProofState .evSave).1.meta = pubProofState.meta ∧
     (step (fun _ => none) pubProofState .evSave).2 = []) ∧
    (anchorProofOnChain none "2025-01-01T00:00:00.000Z".data
        (initState true "T1".data [])).2 = [] := by
  have h := c9_readonly_no_mutation (fun _ => none)
  exact ⟨⟨((h.1 pubProofState rfl).1).1, ((h.1 pubProofState rfl).1).2.2⟩,
    (h.2.2 none "2025-01-01T00:00:00.000Z".data (initState true "T1".data []) rfl).2.2⟩

/-- C9 counterexample: the claim fails as stated, because the anchor
entry point itself consults no view mode — invoked directly on a
read-only state that carries a generated proof hash and a capable
wallet, `anchorProofOnChain` performs a ledger write. -/
theorem c9_counterexample :
    pubProofState.isPublicView = true ∧
    (anchorProofOnChain (some ⟨some "PK".data, .signAndSend "SIG".data⟩)
        "2025-01-01T00:00:00.000Z".data pubProofState).2 ≠ [] := by
  refine ⟨rfl, ?_⟩
  decide

/-- C3 (amended): the anchor memo round trip — decoding the four-line
memo built by the anchor writer with the verifier's line-prefix decoder
(extended to the Timestamp line by the same prefix rule the spec gives
for the decoder) recovers the treasury, the digest and the timestamp
exactly, for every 64-hex-character digest and every treasury and
timestamp string that contains no newline and carries no leading or
trailing whitespace. -/
theorem c3_memo_roundtrip {t h ts : Str} (ht : '\n' ∉ t) (htt : trimJs t = t)
    (hlen : h.length = 64) (hhex : ∀ c ∈ h, isHexDigit c = true)
    (hts : '\n' ∉ ts) (htts : trimJs ts = ts) :
    decodeField "treasury:".data (encodeMemo t h ts) = t ∧
    decodeField "hash:".data (encodeMemo t h ts) = h ∧
    decodeField "timestamp:".data (encodeMemo t h ts) = ts :=
  decodeField_encodeMemo ht htt hhex hts htts

/-- Witness for C3 (amended) at a concrete treasury, digest and
timestamp. -/
theorem c3_witness :
    decodeField "treasury:".data
        (encodeMemo "Vote111111111111111111111111111111111111111".data
          "44136fa355b3678a1146ad16f7e8649e94fb4fc21fe77e8310c060f61caaff8a".data
          "2025-01-01T00:00:00.000Z".data)
      = "Vote111111111111111111111111111111111111111".data ∧
    decodeField "hash:".data
        (encodeMemo "Vote111111111111111111111111111111111111111".data
          "44136fa355b3678a1146ad16f7e8649e94fb4fc21fe77e8310c060f61caaff8a".data
          "2025-01-01T00:00:00.000Z".data)
      = "44136fa355b3678a1146ad16f7e8649e94fb4fc21fe77e8310c060f61caaff8a".data ∧
    decodeField "timestamp:".data
        (encodeMemo "Vote111111111111111111111111111111111111111".data
          "44136fa355b3678a1146ad16f7e8649e94fb4fc21fe77e8310c060f61caaff8a".data
          "2025-01-01T00:00:00.000Z".data)
      = "2025-01-01T00:00:00.000Z".data :=
  c3_memo_roundtrip (by decide) (by decide) (by decide) (by decide) (by decide) (by decide)

/-- C3 counterexample: the round trip fails for an arbitrary ASCII
treasury value — a treasury with a leading space (ASCII 0x20) is
returned trimmed by the decoder's `\s*` strip, not recovered exactly. -/
theorem c3_counterexample :
    decodeField "treasury:".data
        (encodeMemo " T1".data (List.replicate 64 '0') "2025-01-01T00:00:00.000Z".data)
      = "T1".data ∧
    "T1".data ≠ " T1".data := by
  constructor
  · decide
  · decide

/-- C4 (amended): the verifier's hash comparison is exact
(case-sensitive), not case-insensitive: once the verifier reaches a
readable memo whose decoded hash is non-empty, the verdict is
`hashMismatch` — whose diagnostic carries the computed hash, the memo
hash and the raw memo text — precisely when the decoded memo hash
differs byte-for-byte from the computed hash; in particular a memo hash
equal to the computed hash up to ASCII letter case but not byte-equal is
rejected (see the counterexample). -/
theorem c4_hash_comparison_exact
    (jparse : Str → Option Jval) (getTx : Str → Option ParsedTx)
    (tx json : Str) (pj : Jval) (ptx : ParsedTx) (memoIx : ParsedIx) (mt : Str)
    (h1 : trimJs tx ≠ []) (h2 : trimJs json ≠ [])
    (h3 : jparse (trimJs json) = some pj)
    (h4 : getTx (trimJs tx) = some ptx)
    (h5 : ptx.instructions.find? (fun ix => decide (ix.programId = MEMO_PROGRAM_ID))
          = some memoIx)
    (h6 : memoTextOf memoIx.payload = some mt)
    (h7 : decodeField "hash:".data mt ≠ []) :
    (verifyProof jparse getTx tx json).1 =
        .hashMismatch (sha256Hex (stableStringify pj)) (decodeField "hash:".data mt) mt
      ↔ decodeField "hash:".data mt ≠ sha256Hex (stableStringify pj) := by
  unfold verifyProof
  rw [if_neg h1, if_neg h2, h3]
  dsimp only
  rw [h4]
  dsimp only
  rw [h5]
  dsimp only
  rw [h6]
  dsimp only
  rw [if_neg h7]
  by_cases hne : decodeField "hash:".data mt ≠ sha256Hex (stableStringify pj)
  · rw [if_pos hne]
    simp [hne]
  · rw [if_neg hne]
    split_ifs with htr
    · constructor
      · intro hcon
        exact absurd hcon (by simp)
      · intro hcon
        exact absurd hcon hne
    · constructor
      · intro hcon
        exact absurd hcon (by simp)
      · intro hcon
        exact absurd hcon hne

/-- Witness for C4 (amended) at a concrete run: the computed hash of the
canonicalized empty document against a memo carrying that hash in upper
case. -/
theorem c4_witness :
    ((verifyProof (fun _ => some (Jval.obj []))
        (fun _ => some ⟨[⟨MEMO_PROGRAM_ID,
          .pstr "Hash: 44136FA355B3678A1146AD16F7E8649E94FB4FC21FE77E8310C060F61CAAFF8A".data⟩]⟩)
        "TX".data "{}".data).1 =
      .hashMismatch (sha256Hex (stableStringify (Jval.obj [])))
        (decodeField "hash:".data
          "Hash: 44136FA355B3678A1146AD16F7E8649E94FB4FC21FE77E8310C060F61CAAFF8A".data)
        "Hash: 44136FA355B3678A1146AD16F7E8649E94FB4FC21FE77E8310C060F61CAAFF8A".data
      ↔ decodeField "hash:".data
          "Hash: 44136FA355B3678A1146AD16F7E8649E94FB4FC21FE77E8310C060F61CAAFF8A".data
          ≠ sha256Hex (stableStringify (Jval.obj []))) :=
  c4_hash_comparison_exact (fun _ => some (Jval.obj []))
    (fun _ => some ⟨[⟨MEMO_PROGRAM_ID,
      .pstr "Hash: 44136FA355B3678A1146AD16F7E8649E94FB4FC21FE77E8310C060F61CAAFF8A".data⟩]⟩)
    "TX".data "{}".data (Jval.obj [])
    ⟨[⟨MEMO_PROGRAM_ID,
      .pstr "Hash: 44136FA355B3678A1146AD16F7E8649E94FB4FC21FE77E8310C060F61CAAFF8A".data⟩]⟩
    ⟨MEMO_PROGRAM_ID,
      .pstr "Hash: 44136FA355B3678A1146AD16F7E8649E94FB4FC21FE77E8310C060F61CAAFF8A".data⟩
    "Hash: 44136FA355B3678A1146AD16F7E8649E94FB4FC21FE77E8310C060F61CAAFF8A".data
    (by decide) (by decide) rfl rfl (by decide) rfl (by decide)

/-- C4 counterexample: the decoded memo hash equals the computed hash up
to ASCII letter case yet the verdict is `hashMismatch`, refuting the
claimed case-insensitive comparison (the source compares with strict
`!==`). -/
theorem c4_counterexample :
    (lowerStr "44136FA355B3678A1146AD16F7E8649E94FB4FC21FE77E8310C060F61CAAFF8A".data =
        lowerStr "44136fa355b3678a1146ad16f7e8649e94fb4fc21fe77e8310c060f61caaff8a".data ∧
      "44136FA355B3678A1146AD16F7E8649E94FB4FC21FE77E8310C060F61CAAFF8A".data ≠
        "44136fa355b3678a1146ad16f7e8649e94fb4fc21fe77e8310c060f61caaff8a".data) ∧
    (verifyProof (fun _ => some (Jval.obj []))
        (fun _ => some ⟨[⟨MEMO_PROGRAM_ID,
          .pstr "Hash: 44136FA355B3678A1146AD16F7E8649E94FB4FC21FE77E8310C060F61CAAFF8A".data⟩]⟩)
        "TX".data "{}".data).1 =
      .hashMismatch
        "44136fa355b3678a1146ad16f7e8649e94fb4fc21fe77e8310c060f61caaff8a".data
        "44136FA355B3678A1146AD16F7E8649E94FB4FC21FE77E8310C060F61CAAFF8A".data
        "Hash: 44136FA355B3678A1146AD16F7E8649E94FB4FC21FE77E8310C060F61CAAFF8A".data := by
  refine ⟨⟨by decide, by decide⟩, ?_⟩
  decide

/-- C7: TreasuryMismatch is the weaker, hash-matched verdict — whenever
the verifier reaches a readable memo whose decoded non-empty hash equals
the computed hash and both the document treasury and the memo Treasury
line are non-empty and differ, the result is `treasuryMismatch`
(carrying the two treasuries and the memo text, the hash having already
matched), not `hashMismatch` and not `verified`; and conversely a
`treasuryMismatch` verdict is only reachable after the hash comparison
has succeeded. -/
theorem c7_treasury_mismatch_weak
    (jparse : Str → Option Jval) (getTx : Str → Option ParsedTx) (tx json : Str) :
    (∀ (pj : Jval) (ptx : ParsedTx) (memoIx : ParsedIx) (mt : Str),
      trimJs tx ≠ [] → trimJs json ≠ [] →
      jparse (trimJs json) = some pj →
      getTx (trimJs tx) = some ptx →
      ptx.instructions.find? (fun ix => decide (ix.programId = MEMO_PROGRAM_ID))
        = some memoIx →
      memoTextOf memoIx.payload = some mt →
      decodeField "hash:".data mt = sha256Hex (stableStringify pj) →
      decodeField "hash:".data mt ≠ [] →
      trimJs (jsTreasuryField pj) ≠ [] →
      decodeField "treasury:".data mt ≠ [] →
      trimJs (jsTreasuryField pj) ≠ decodeField "treasury:".data mt →
      (verifyProof jparse getTx tx json).1 =
        .treasuryMismatch (trimJs (jsTreasuryField pj))
          (decodeField "treasury:".data mt) mt) ∧
    (∀ (jt mtr mt : Str),
      (verifyProof jparse getTx tx json).1 = .treasuryMismatch jt mtr mt →
      ∃ pj, jparse (trimJs json) = some pj ∧
        decodeField "hash:".data mt = sha256Hex (stableStringify pj)) := by
  constructor
  · intro pj ptx memoIx mt h1 h2 h3 h4 h5 h6 h7 h8 h9 h10 h11
    unfold verifyProof
    rw [if_neg h1, if_neg h2, h3]
    dsimp only
    rw [h4]
    dsimp only
    rw [h5]
    dsimp only
    rw [h6]
    dsimp only
    rw [if_neg h8, if_neg (show ¬decodeField "hash:".data mt ≠
          sha256Hex (stableStringify pj) from not_not.2 h7),
        if_pos ⟨h9, h10, h11⟩]
  · intro jt mtr mt hres
    unfold verifyProof at hres
    by_cases h1 : trimJs tx = []
    · rw [if_pos h1] at hres
      exact absurd hres (by simp)
    · rw [if_neg h1] at hres
      by_cases h2 : trimJs json = []
      · rw [if_pos h2] at hres
        exact absurd hres (by simp)
      · rw [if_neg h2] at hres
        cases h3 : jparse (trimJs json) with
        | none =>
          rw [h3] at hres
          exact absurd hres (by simp)
        | some pj =>
          rw [h3] at hres
          dsimp only at hres
          refine ⟨pj, rfl, ?_⟩
          cases h4 : getTx (trimJs tx) with
          | none =>
            rw [h4] at hres
            exact absurd hres (by simp)
          | some ptx =>
            rw [h4] at hres
            dsimp only at hres
            cases h5 : ptx.instructions.find?
                (fun ix => decide (ix.programId = MEMO_PROGRAM_ID)) with
            | none =>
              rw [h5] at hres
              exact absurd hres (by simp)
            | some memoIx =>
              rw [h5] at hres
              dsimp only at hres
              cases h6 : memoTextOf memoIx.payload with
              | none =>
                rw [h6] at hres
                exact absurd hres (by simp)
              | some mtext =>
                rw [h6] at hres
                dsimp only at hres
                by_cases h7 : decodeField "hash:".data mtext = []
                · rw [if_pos h7] at hres
                  exact absurd hres (by simp)
                · rw [if_neg h7] at hres
                  by_cases h8 : decodeField "hash:".data mtext ≠
                      sha256Hex (stableStringify pj)
                  · rw [if_pos h8] at hres
                    exact absurd hres (by simp)
                  · rw [if_neg h8] at hres
                    by_cases h9 : trimJs (jsTreasuryField pj) ≠ [] ∧
                        decodeField "treasury:".data mtext ≠ [] ∧
                        trimJs (jsTreasuryField pj) ≠ decodeField "treasury:".data mtext
                    · rw [if_pos h9] at hres
                      simp only [VerifyResult.treasuryMismatch.injEq] at hres
                      obtain ⟨hjt, hmtr, hmt⟩ := hres
                      subst hmt
                      exact not_not.1 h8
                    · rw [if_neg h9] at hres
                      exact absurd hres (by simp)

/-- Witness for C7 at a concrete run: document treasury "T1", memo
treasury "T2", matching hash — the verdict is the treasury mismatch
carrying both treasuries and the memo text. -/
theorem c7_witness :
    (verifyProof (fun _ => some (Jval.obj [("treasury".data, .str "T1".data)]))
        (fun _ => some ⟨[⟨MEMO_PROGRAM_ID,
          .pstr "Hash: 45dac692bde16fd6c12034a3df7a18538deb07703a44243bf40affe767c9db48\nTreasury: T2".data⟩]⟩)
        "TX".data "doc".data).1 =
      .treasuryMismatch
        (trimJs (jsTreasuryField (Jval.obj [("treasury".data, .str "T1".data)])))
        (decodeField "treasury:".data
          "Hash: 45dac692bde16fd6c12034a3df7a18538deb07703a44243bf40affe767c9db48\nTreasury: T2".data)
        "Hash: 45dac692bde16fd6c12034a3df7a18538deb07703a44243bf40affe767c9db48\nTreasury: T2".data :=
  (c7_treasury_mismatch_weak (fun _ => some (Jval.obj [("treasury".data, .str "T1".data)]))
    (fun _ => some ⟨[⟨MEMO_PROGRAM_ID,
      .pstr "Hash: 45dac692bde16fd6c12034a3df7a18538deb07703a44243bf40affe767c9db48\nTreasury: T2".data⟩]⟩)
    "TX".data "doc".data).1
    (Jval.obj [("treasury".data, .str "T1".data)])
    ⟨[⟨MEMO_PROGRAM_ID,
      .pstr "Hash: 45dac692bde16fd6c12034a3df7a18538deb07703a44243bf40affe767c9db48\nTreasury: T2".data⟩]⟩
    ⟨MEMO_PROGRAM_ID,
      .pstr "Hash: 45dac692bde16fd6c12034a3df7a18538deb07703a44243bf40affe767c9db48\nTreasury: T2".data⟩
    "Hash: 45dac692bde16fd6c12034a3df7a18538deb07703a44243bf40affe767c9db48\nTreasury: T2".data
    (by decide) (by decide) rfl rfl (by decide) rfl (by decide) (by decide) (by decide)
    (by decide) (by decide)
